import Mathlib

/-!
# Verification of the NexusPM hierarchy/aggregation core

A shallow embedding in Lean 4 of the portable core of the NexusPM
Obsidian plugin: the WBS parser (`src/wbs/wbsParser.ts`, `wbsDataModel.ts`),
the decision parser and scoring logic (`src/decision/decisionParser.ts`,
scoring module, `decisionDataModel.ts`).

Modelling conventions:
* JavaScript strings are modelled as `List Char` (`Str`); Lean's built-in
  `String` operations do not reduce in the kernel, so every string operation
  used by the source is re-implemented on `List Char`.  JS `sort()` compares
  UTF-16 code units; we compare code points, which agrees on all BMP text.
* JS numbers are modelled as `ℚ` (the source performs only exact
  arithmetic on them: sums, products, one division fed to `Math.round`).
  `NaN`/`Infinity` are outside the model.
* A JS `Map` is modelled as an association list in insertion order with
  unique keys (`AList`); frontmatter objects likewise.
* The recursive tree walks of the source (`assignWBSNumbers`,
  `calculateLevels`, `calculateProgress`) have no cycle protection and
  diverge on cyclic input; they are embedded with an explicit fuel
  parameter, with callers passing a fuel that dominates every terminating
  run of the source.
-/

namespace NexusPM

/-- JS strings as lists of characters. -/
abbrev Str := List Char

/-- Coerce a Lean string literal to the `Str` model. -/
def str (s : String) : Str := s.data

/-- JS whitespace test (ASCII fragment; the source only trims ASCII-spaced
frontmatter values). -/
def isWs (c : Char) : Bool := c = ' ' || c = '\t' || c = '\n' || c = '\r'

/-- `String.prototype.trim`. -/
def trimStr (s : Str) : Str :=
  ((s.dropWhile isWs).reverse.dropWhile isWs).reverse

/-- `String.prototype.toLowerCase` (ASCII fragment; the Japanese status
words the source compares against are unaffected by lowercasing). -/
def lowerChar (c : Char) : Char :=
  if 'A' ≤ c ∧ c ≤ 'Z' then Char.ofNat (c.toNat + 32) else c

/-- `String.prototype.toLowerCase` on a whole string. -/
def lowerStr (s : Str) : Str := s.map lowerChar

/-- Strict lexicographic order on strings by code point, as used by the JS
default `Array.prototype.sort` comparator on our (BMP) path strings. -/
def strLt : Str → Str → Bool
  | [], [] => false
  | [], _ :: _ => true
  | _ :: _, [] => false
  | a :: as, b :: bs =>
    if a.toNat < b.toNat then true
    else if a.toNat = b.toNat then strLt as bs
    else false

/-- Stable insertion of a string into an ascending-sorted list
(equal keys keep their relative order, matching a stable JS sort). -/
def insertAsc (x : Str) : List Str → List Str
  | [] => [x]
  | y :: ys => if strLt x y then x :: y :: ys else y :: insertAsc x ys

/-- `Array.prototype.sort()` on string arrays (stable, ascending). -/
def sortStrs : List Str → List Str
  | [] => []
  | x :: xs => insertAsc x (sortStrs xs)

/-- Decimal digit character. -/
def digitChar (n : Nat) : Char := Char.ofNat (48 + n)

/-- Decimal rendering of a natural number, fuelled so that it is
structurally recursive (the fuel `n + 1` always suffices). -/
def natToStrAux : Nat → Nat → Str
  | 0, _ => []
  | fuel + 1, n =>
    if n < 10 then [digitChar n]
    else natToStrAux fuel (n / 10) ++ [digitChar (n % 10)]

/-- JS `String(n)` for a natural number. -/
def natToStr (n : Nat) : Str := natToStrAux (n + 1) n

/-- `path.split('/')` followed by `.pop()`: the last `/`-separated
segment (the empty string when the path ends in `/`). -/
def basenameAux : Str → Str → Str
  | [], acc => acc.reverse
  | c :: rest, acc => if c = '/' then basenameAux rest [] else basenameAux rest (c :: acc)

/-- Base filename of a path, as computed by `itemPath.split('/').pop()`. -/
def basenameOf (p : Str) : Str := basenameAux p []

/-- `s.replace('.md', '')` — JS `String.replace` with a string pattern
removes only the FIRST occurrence of `".md"` (not necessarily a suffix). -/
def removeFirstMd : Str → Str
  | [] => []
  | c :: rest =>
    if (str ".md").isPrefixOf (c :: rest) then rest.drop 2
    else c :: removeFirstMd rest

/-- `t.replace(/\.md$/, '')`: strip one trailing `".md"`. -/
def stripMdSuffix (t : Str) : Str :=
  match t.reverse with
  | 'd' :: 'm' :: '.' :: r => r.reverse
  | _ => t

/-- `Math.round` on an exact rational: JS rounds half toward +∞,
`Math.round(x) = ⌊x + 1/2⌋`. -/
def jsRound (x : ℚ) : ℚ := (⌊x + 1/2⌋ : ℤ)

/-! ## Frontmatter values

A frontmatter property value as the parsers see it (the `unknown` of
`FrontmatterData`).  `JsValue.obj` keeps its entries because
`parseOption` iterates over a `scores` object; for the truthiness checks
only its presence matters.  JS `null` is its own variant (`typeof null
=== 'object'`, but the source always excludes it explicitly). -/
inductive JsValue where
  | bool (b : Bool)
  | num (q : ℚ)
  | s (v : Str)
  | arr (elems : List JsValue)
  | obj (entries : List (Str × JsValue))
  | nullv

/-- A frontmatter record: property name ↦ value, insertion order. -/
abbrev Frontmatter := List (Str × JsValue)

/-- Property lookup in a frontmatter record (first match). -/
def fmGet (fm : Frontmatter) (k : Str) : Option JsValue :=
  match fm.find? (fun e => e.1 = k) with
  | some e => some e.2
  | none => none

end NexusPM

namespace NexusPM

/-! ## WBS data model (`wbsDataModel.ts`) -/

/-- `WBSStatus`. -/
inductive WBSStatus where
  | notStarted
  | inProgress
  | completed
  | blocked
  | cancelled
deriving DecidableEq

/-- `WBSItem` — one task, a projection of one note. -/
structure WBSItem where
  id : Str
  title : Str
  parentId : Option Str
  childIds : List Str
  wbsNumber : Str
  status : WBSStatus
  assignee : Option Str
  startDate : Option Str
  dueDate : Option Str
  progress : ℚ
  estimatedHours : Option ℚ
  actualHours : Option ℚ
  priority : Option ℚ
  tags : List Str
  description : Option Str
  level : Nat
  isExpanded : Bool
deriving DecidableEq

/-- The item map of a project: a JS `Map<string, WBSItem>` in insertion
order with unique keys. -/
abbrev ItemMap := List (Str × WBSItem)

/-- `Map.get`. -/
def alistGet (m : ItemMap) (id : Str) : Option WBSItem :=
  match m.find? (fun e => e.1 = id) with
  | some e => some e.2
  | none => none

/-- `Map.has`. -/
def alistHas (m : ItemMap) (id : Str) : Bool :=
  (m.find? (fun e => e.1 = id)).isSome

/-- `Map.set`: overwrite in place if the key exists, else append. -/
def alistSet : ItemMap → Str → WBSItem → ItemMap
  | [], id, v => [(id, v)]
  | e :: rest, id, v =>
    if e.1 = id then (id, v) :: rest else e :: alistSet rest id v

/-- In-place mutation of one entry (a JS object field assignment through
the reference held in the map); missing keys are untouched. -/
def alistModify : ItemMap → Str → (WBSItem → WBSItem) → ItemMap
  | [], _, _ => []
  | e :: rest, id, f =>
    if e.1 = id then (e.1, f e.2) :: rest else e :: alistModify rest id f

/-- The key list of the map, in iteration order. -/
def alistKeys (m : ItemMap) : List Str := m.map (·.1)

/-- `WBSProject` (the `lastUpdated : Date` timestamp is outside the
model). -/
structure WBSProject where
  id : Str
  name : Str
  rootItemIds : List Str
  items : ItemMap
deriving DecidableEq

/-- `normalizeStatus` — free-text status normalization (English and
Japanese vocabularies, case-insensitive). -/
def normalizeStatus (status : Str) : WBSStatus :=
  if status = [] then .notStarted else
  let n := trimStr (lowerStr status)
  if n = str "completed" ∨ n = str "done" ∨ n = str "complete" then .completed
  else if n = str "in-progress" ∨ n = str "inprogress" ∨ n = str "in progress" ∨
      n = str "doing" then .inProgress
  else if n = str "blocked" ∨ n = str "hold" ∨ n = str "on hold" then .blocked
  else if n = str "cancelled" ∨ n = str "canceled" then .cancelled
  else if n = str "not-started" ∨ n = str "todo" ∨ n = str "to do" ∨
      n = str "not started" then .notStarted
  else if n = str "完了" ∨ n = str "済" ∨ n = str "済み" then .completed
  else if n = str "進行中" ∨ n = str "作業中" ∨ n = str "対応中" then .inProgress
  else if n = str "ブロック" ∨ n = str "ブロック中" ∨ n = str "保留" ∨ n = str "待ち" then .blocked
  else if n = str "キャンセル" ∨ n = str "中止" ∨ n = str "取消" then .cancelled
  else if n = str "未着手" ∨ n = str "未開始" ∨ n = str "予定" then .notStarted
  else .notStarted

/-- `WBSPropertyMapping` — logical field name ↦ frontmatter key. -/
structure WBSPropertyMapping where
  parent : Str
  status : Str
  assignee : Str
  startDate : Str
  dueDate : Str
  date : Str
  startTime : Str
  endTime : Str
  progress : Str
  estimatedHours : Str
  actualHours : Str
  priority : Str
  wbsNumber : Str
  completed : Str

/-- `DEFAULT_PROPERTY_MAPPING`. -/
def DEFAULT_PROPERTY_MAPPING : WBSPropertyMapping where
  parent := str "parent"
  status := str "status"
  assignee := str "assignee"
  startDate := str "start-date"
  dueDate := str "due-date"
  date := str "date"
  startTime := str "startTime"
  endTime := str "endTime"
  progress := str "progress"
  estimatedHours := str "estimated-hours"
  actualHours := str "actual-hours"
  priority := str "priority"
  wbsNumber := str "wbs-number"
  completed := str "completed"

/-- Truthiness of `frontmatter[key]` for the `if (x && typeof x ===
'string')` guards: the value is a string and is non-empty. -/
def truthyStr : Option JsValue → Option Str
  | some (.s v) => if v = [] then none else some v
  | _ => none

/-- `calculateStartDate` — legacy `start-date` wins, else `date`
(`startTime` is consulted but only the date component is kept). -/
def calculateStartDate (fm : Frontmatter) (mapping : WBSPropertyMapping) : Option Str :=
  match truthyStr (fmGet fm mapping.startDate) with
  | some legacy => some legacy
  | none =>
    match truthyStr (fmGet fm mapping.date) with
    | some date =>
      match truthyStr (fmGet fm mapping.startTime) with
      | some _ => some date
      | none => some date
    | none => none

/-- `calculateDueDate` — legacy `due-date` wins, else `date`
(`endTime` is consulted but only the date component is kept). -/
def calculateDueDate (fm : Frontmatter) (mapping : WBSPropertyMapping) : Option Str :=
  match truthyStr (fmGet fm mapping.dueDate) with
  | some legacy => some legacy
  | none =>
    match truthyStr (fmGet fm mapping.date) with
    | some date =>
      match truthyStr (fmGet fm mapping.endTime) with
      | some _ => some date
      | none => some date
    | none => none

/-- `createDefaultWBSItem`. -/
def createDefaultWBSItem (id : Str) (title : Str) : WBSItem where
  id := id
  title := title
  parentId := none
  childIds := []
  wbsNumber := []
  status := .notStarted
  assignee := none
  startDate := none
  dueDate := none
  progress := 0
  estimatedHours := none
  actualHours := none
  priority := none
  tags := []
  description := none
  level := 0
  isExpanded := true

end NexusPM

namespace NexusPM

/-! ## Link extraction (`WBSParser.extractLinkTarget`, identical code in
`DecisionParser.extractLinkTarget`) -/

/-- Attempt of `/\[\[([^\]|]+)(?:\|[^\]]+)?\]\]/` right after an opening
`[[`: capture the non-empty target, allow an optional `|alias`, require
the closing `]]`. -/
def wikiAfter (cs : Str) : Option Str :=
  let t := cs.takeWhile (fun c => !(c == ']' || c == '|'))
  if t = [] then none else
  match cs.drop t.length with
  | ']' :: ']' :: _ => some t
  | '|' :: r2 =>
    let a := r2.takeWhile (fun c => !(c == ']'))
    if a = [] then none else
    match r2.drop a.length with
    | ']' :: ']' :: _ => some t
    | _ => none
  | _ => none

/-- Leftmost match of the wiki-link pattern (`link.match(/\[\[…\]\]/)`),
advancing one position on failure like the regex engine. -/
def findWiki : Str → Option Str
  | [] => none
  | c :: rest =>
    if c = '[' then
      match rest with
      | '[' :: r2 =>
        match wikiAfter r2 with
        | some t => some t
        | none => findWiki rest
      | _ => findWiki rest
    else findWiki rest

/-- Attempt of `/\[[^\]]*\]\(([^)]+)\)/` right after an opening `[`. -/
def mdAfter (cs : Str) : Option Str :=
  let lbl := cs.takeWhile (fun c => !(c == ']'))
  match cs.drop lbl.length with
  | ']' :: '(' :: r2 =>
    let t := r2.takeWhile (fun c => !(c == ')'))
    if t = [] then none else
    match r2.drop t.length with
    | ')' :: _ => some t
    | _ => none
  | _ => none

/-- Leftmost match of the markdown-link pattern. -/
def findMd : Str → Option Str
  | [] => none
  | c :: rest =>
    if c = '[' then
      match mdAfter rest with
      | some t => some t
      | none => findMd rest
    else findMd rest

/-- `extractLinkTarget`: wiki link, else markdown link (with a trailing
`.md` stripped), else the raw text; `null` only for the empty string. -/
def extractLinkTarget (link : Str) : Option Str :=
  if link = [] then none
  else
    match findWiki link with
    | some t => some t
    | none =>
      match findMd link with
      | some t => some (stripMdSuffix t)
      | none => some link

/-! ## `WBSParser.parseFile` -/

/-- What the host metadata cache supplies for one note: its path, its
base filename (extension-stripped, supplied by the host as
`TFile.basename`), its frontmatter record if any, and the text of its
first level-1 heading if any. -/
structure NoteFile where
  path : Str
  basename : Str
  frontmatter : Option Frontmatter
  h1 : Option Str

/-- Truthiness of one element of an array-valued `completed` field
(the `completedField.some(...)` callback). -/
def truthyElem : JsValue → Bool
  | .bool b => b
  | .num n => if n = 0 then false else true
  | .s v =>
    let s := trimStr (lowerStr v)
    !(s == [] || s == str "false" || s == str "0" || s == str "- [ ]")
  | .arr _ => true
  | .obj _ => true
  | .nullv => false

/-- The completion-override truthiness table of `parseFile`: boolean
`true`; a string other than `""`/`"false"`/`"0"` after trim+lowercase; a
nonzero number; an array with at least one `truthyElem` element; any
non-null object. -/
def isCompletedJs : JsValue → Bool
  | .bool b => b
  | .s v =>
    let s := trimStr (lowerStr v)
    !(s == [] || s == str "false" || s == str "0")
  | .num n => if n = 0 then false else true
  | .arr es => es.any truthyElem
  | .obj _ => true
  | .nullv => false

/-- Best-effort JS `String(x)` used only for the `tags` field (exact on
strings, booleans and integers; fractional numbers are rendered
`num/den` where JS would use decimal notation — no claim depends on
it). -/
def jsToString : JsValue → Str
  | .s w => w
  | .bool true => str "true"
  | .bool false => str "false"
  | .nullv => str "null"
  | .num q =>
    if q.den = 1 then
      (if q.num < 0 then '-' :: natToStr q.num.natAbs else natToStr q.num.natAbs)
    else
      (if q.num < 0 then '-' :: natToStr q.num.natAbs else natToStr q.num.natAbs) ++
        '/' :: natToStr q.den
  | .arr _ => str "[array]"
  | .obj _ => str "[object]"

/-! `WBSParser.parseFile` is a straight-line sequence of per-field
assignments on the freshly created item; each statement of the source is
embedded as one named step so the pipeline below composes them in source
order. -/

/-- `parseFile` step: the parent backlink. -/
def stepParent (mapping : WBSPropertyMapping) (fm : Frontmatter) (item : WBSItem) : WBSItem :=
  match truthyStr (fmGet fm mapping.parent) with
  | some link => { item with parentId := extractLinkTarget link }
  | none => item

/-- `parseFile` step: the status field. -/
def stepStatus (mapping : WBSPropertyMapping) (fm : Frontmatter) (item : WBSItem) : WBSItem :=
  match truthyStr (fmGet fm mapping.status) with
  | some s => { item with status := normalizeStatus s }
  | none => item

/-- `parseFile` step: the assignee field. -/
def stepAssignee (mapping : WBSPropertyMapping) (fm : Frontmatter) (item : WBSItem) : WBSItem :=
  match truthyStr (fmGet fm mapping.assignee) with
  | some a => { item with assignee := some a }
  | none => item

/-- `parseFile` step: effective start/due dates. -/
def stepDates (mapping : WBSPropertyMapping) (fm : Frontmatter) (item : WBSItem) : WBSItem :=
  { item with
    startDate := calculateStartDate fm mapping
    dueDate := calculateDueDate fm mapping }

/-- `parseFile` step: the clamped progress field. -/
def stepProgress (mapping : WBSPropertyMapping) (fm : Frontmatter) (item : WBSItem) : WBSItem :=
  match fmGet fm mapping.progress with
  | some (.num p) => { item with progress := max 0 (min 100 p) }
  | _ => item

/-- `parseFile` step: the completed-checkbox override. -/
def stepCompleted (mapping : WBSPropertyMapping) (fm : Frontmatter) (item : WBSItem) : WBSItem :=
  match fmGet fm mapping.completed with
  | some v =>
    if isCompletedJs v then { item with progress := 100, status := .completed }
    else item
  | none => item

/-- `parseFile` step: estimated hours. -/
def stepEstimated (mapping : WBSPropertyMapping) (fm : Frontmatter) (item : WBSItem) : WBSItem :=
  match fmGet fm mapping.estimatedHours with
  | some (.num n) => { item with estimatedHours := some n }
  | _ => item

/-- `parseFile` step: actual hours. -/
def stepActual (mapping : WBSPropertyMapping) (fm : Frontmatter) (item : WBSItem) : WBSItem :=
  match fmGet fm mapping.actualHours with
  | some (.num n) => { item with actualHours := some n }
  | _ => item

/-- `parseFile` step: priority. -/
def stepPriority (mapping : WBSPropertyMapping) (fm : Frontmatter) (item : WBSItem) : WBSItem :=
  match fmGet fm mapping.priority with
  | some (.num n) => { item with priority := some n }
  | _ => item

/-- `parseFile` step: an explicitly authored WBS number. -/
def stepWbsNumber (mapping : WBSPropertyMapping) (fm : Frontmatter) (item : WBSItem) : WBSItem :=
  match truthyStr (fmGet fm mapping.wbsNumber) with
  | some w => { item with wbsNumber := w }
  | none => item

/-- `parseFile` step: tags (always read from the literal `tags` key). -/
def stepTags (fm : Frontmatter) (item : WBSItem) : WBSItem :=
  match fmGet fm (str "tags") with
  | some (.arr ts) => { item with tags := ts.map jsToString }
  | some (.s t) => if t = [] then item else { item with tags := [t] }
  | _ => item

/-- `WBSParser.parseFile` — build a `WBSItem` from one note.  The source
declares the return type `WBSItem | null` but every path returns an
item, so the embedding is total. -/
def parseFile (mapping : WBSPropertyMapping) (file : NoteFile) : WBSItem :=
  let item := createDefaultWBSItem file.path file.basename
  let item := match file.h1 with
    | some h => { item with title := h }
    | none => item
  match file.frontmatter with
  | none => item
  | some fm =>
    stepTags fm (stepWbsNumber mapping fm (stepPriority mapping fm (stepActual mapping fm
      (stepEstimated mapping fm (stepCompleted mapping fm (stepProgress mapping fm
        (stepDates mapping fm (stepAssignee mapping fm (stepStatus mapping fm
          (stepParent mapping fm item))))))))))

end NexusPM

namespace NexusPM

/-! ## Hierarchy resolution (`WBSParser.resolveParentPath`,
`WBSParser.resolveRelationships`) -/

/-- `resolveParentPath`: exact id, then `folder/target.md`,
`folder/target`, `target.md`, then a scan of all keys for a base
filename whose first `".md"` occurrence removed equals the target. -/
def resolveParentPath (parentId : Str) (folderPath : Str) (items : ItemMap) : Option Str :=
  if alistHas items parentId then some parentId
  else
    let possiblePaths := [
      folderPath ++ str "/" ++ parentId ++ str ".md",
      folderPath ++ str "/" ++ parentId,
      parentId ++ str ".md"]
    match possiblePaths.find? (fun p => alistHas items p) with
    | some p => some p
    | none =>
      match (alistKeys items).find? (fun ip => removeFirstMd (basenameOf ip) = parentId) with
      | some ip => some ip
      | none => none

/-- One iteration of the first loop of `resolveRelationships`, for the
entry at `itemPath` (reading and mutating the current map exactly as the
source mutates the shared `Map`). -/
def resolveStep (folderPath : Str) (m : ItemMap) (itemPath : Str) : ItemMap :=
  match alistGet m itemPath with
  | none => m
  | some item =>
    match item.parentId with
    | none => m
    | some t =>
      if t = [] then m
      else
        match resolveParentPath t folderPath m with
        | some rp =>
          if alistHas m rp then
            let m1 := alistModify m itemPath (fun it => { it with parentId := some rp })
            alistModify m1 rp (fun p =>
              if itemPath ∈ p.childIds then p
              else { p with childIds := p.childIds ++ [itemPath] })
          else alistModify m itemPath (fun it => { it with parentId := none })
        | none => alistModify m itemPath (fun it => { it with parentId := none })

/-- `resolveRelationships`: resolve every declared parent, then collect
every item with a falsy (`null` or empty) `parentId` as a root, and sort
the root list. -/
def resolveRelationships (project : WBSProject) (folderPath : Str) : WBSProject :=
  let m := (alistKeys project.items).foldl (resolveStep folderPath) project.items
  let roots := (m.filter (fun e =>
    match e.2.parentId with
    | none => true
    | some t => t = [])).map (·.1)
  { project with items := m, rootItemIds := sortStrs (project.rootItemIds ++ roots) }

/-! ## Numbering and leveling (`assignWBSNumbers`, `calculateLevels`)

The source recursions carry no cycle protection; the embeddings consume
one unit of fuel per recursive call (both along a sibling list and down
into children), so any fuel at least `2·n + 2` for `n` items reproduces
every terminating run of the source. -/

/-- `assignNumber` inside `assignWBSNumbers`: walk `ids` with 0-based
`idx`, auto-number items whose `wbsNumber` is empty, sort the children
of each item in place and recurse into them with the item's (possibly
authored) number as prefix. -/
def assignNumberAux : Nat → ItemMap → Str → List Str → Nat → ItemMap
  | 0, m, _, _, _ => m
  | fuel + 1, m, pre, ids, idx =>
    match ids with
    | [] => m
    | itemId :: rest =>
      match alistGet m itemId with
      | none => assignNumberAux fuel m pre rest (idx + 1)
      | some item =>
        let num := if item.wbsNumber = [] then
            (if pre = [] then natToStr (idx + 1) else pre ++ '.' :: natToStr (idx + 1))
          else item.wbsNumber
        let m1 := alistModify m itemId (fun it => { it with wbsNumber := num })
        if item.childIds = [] then assignNumberAux fuel m1 pre rest (idx + 1)
        else
          let sortedKids := sortStrs item.childIds
          let m2 := alistModify m1 itemId (fun it => { it with childIds := sortedKids })
          let m3 := assignNumberAux fuel m2 num sortedKids 0
          assignNumberAux fuel m3 pre rest (idx + 1)

/-- Fuel that dominates every terminating run of the numbering/leveling
recursions on the given item map. -/
def wbsFuel (m : ItemMap) : Nat := 2 * (m.length + 1) * (m.length + 1)

/-- `assignWBSNumbers`. -/
def assignWBSNumbers (fuel : Nat) (project : WBSProject) : WBSProject :=
  { project with items := assignNumberAux fuel project.items [] project.rootItemIds 0 }

/-- `calculateLevels`' recursive walk, uncurried over a work list of
ids at a common level. -/
def calcLevelsAux : Nat → ItemMap → List Str → Nat → ItemMap
  | 0, m, _, _ => m
  | _ + 1, m, [], _ => m
  | fuel + 1, m, id :: rest, level =>
    match alistGet m id with
    | none =>
      -- the source guards `if (item)` and otherwise moves on
      calcLevelsAux fuel m rest level
    | some item =>
      let m1 := alistModify m id (fun it => { it with level := level })
      let m2 := calcLevelsAux fuel m1 item.childIds (level + 1)
      calcLevelsAux fuel m2 rest level

/-- `calculateLevels`: root depth 0, each child one deeper. -/
def calculateLevels (fuel : Nat) (project : WBSProject) : WBSProject :=
  { project with items := calcLevelsAux fuel project.items project.rootItemIds 0 }

/-! ## Validation (`validateSingleRoot`) -/

/-- The validation result record. -/
structure WBSValidation where
  valid : Bool
  error : Option Str
  errorFilePaths : Option (List Str)
deriving DecidableEq

/-- JS `Array.prototype.join(sep)`. -/
def joinSep (sep : Str) : List Str → Str
  | [] => []
  | [x] => x
  | x :: xs => x ++ sep ++ joinSep sep xs

/-- `validateSingleRoot`: report zero roots (no file list) or multiple
roots (listing every root id); a pure check that constructs a result and
leaves the project untouched. -/
def validateSingleRoot (project : WBSProject) : WBSValidation :=
  if project.rootItemIds.length = 0 then
    { valid := false
      error := some (str "ルートタスクが見つかりません。parentプロパティが空のタスクを1つ作成してください。")
      errorFilePaths := none }
  else if project.rootItemIds.length > 1 then
    let rootNames := joinSep (str "、") (project.rootItemIds.map (fun id =>
      match alistGet project.items id with
      | some it => if it.title = [] then id else it.title
      | none => id))
    { valid := false
      error := some (str "ルートタスクは1つのみである必要があります。現在" ++
        natToStr project.rootItemIds.length ++ str "個あります: " ++ rootNames)
      errorFilePaths := some project.rootItemIds }
  else { valid := true, error := none, errorFilePaths := none }

/-! ## Folder assembly (`parseFolder`, `updateProjectWithFile`) -/

/-- The folder filter of `WBSParser.parseFolder`:
`file.path.startsWith(folderPath + '/') || file.path.startsWith(folderPath)`. -/
def wbsFolderFilter (folderPath path : Str) : Bool :=
  (folderPath ++ str "/").isPrefixOf path || folderPath.isPrefixOf path

/-- The folder filter of `DecisionParser.parseFolder` and
`DecisionParser.findProjectConfig`:
`file.path.startsWith(folderPath + '/') || file.path === folderPath`. -/
def decisionFolderFilter (folderPath path : Str) : Bool :=
  (folderPath ++ str "/").isPrefixOf path || path == folderPath

/-- `WBSParser.parseFolder`: filter the vault's markdown files, parse
each, resolve relationships, assign numbers, compute levels. -/
def parseFolder (mapping : WBSPropertyMapping) (vaultFiles : List NoteFile)
    (folderPath : Str) : WBSProject :=
  let bn := basenameOf folderPath
  let project : WBSProject := {
    id := folderPath
    name := if bn = [] then folderPath else bn
    rootItemIds := []
    items := (vaultFiles.filter (fun f => wbsFolderFilter folderPath f.path)).foldl
      (fun m f => alistSet m f.path (parseFile mapping f)) [] }
  let project := resolveRelationships project folderPath
  let fuel := wbsFuel project.items
  calculateLevels fuel (assignWBSNumbers fuel project)

/-- `WBSParser.updateProjectWithFile`: re-parse the one changed file into
the existing map, clear all `childIds` and the root list, then re-run
resolution, numbering and leveling on the retained items. -/
def updateProjectWithFile (mapping : WBSPropertyMapping) (project : WBSProject)
    (file : NoteFile) (folderPath : Str) : WBSProject :=
  let item := parseFile mapping file
  let project := { project with items := alistSet project.items file.path item }
  let project := { project with
    items := project.items.map (fun e => (e.1, { e.2 with childIds := [] }))
    rootItemIds := [] }
  let project := resolveRelationships project folderPath
  let fuel := wbsFuel project.items
  calculateLevels fuel (assignWBSNumbers fuel project)

/-! ## Progress roll-up (`calculateProgress` in `wbsDataModel.ts`) -/

/-- The accumulation loop over `item.childIds`: sum the recursively
computed progress of each resolvable child and count them. -/
def sumChildrenAux (f : WBSItem → ℚ) (items : ItemMap) : List Str → ℚ × Nat → ℚ × Nat
  | [], acc => acc
  | cid :: rest, (t, c) =>
    match alistGet items cid with
    | some child => sumChildrenAux f items rest (t + f child, c + 1)
    | none => sumChildrenAux f items rest (t, c)

/-- `calculateProgress`: a leaf's explicit positive progress, else its
status default; a non-leaf averages its resolvable children's recursive
progress, rounded, 0 with no resolvable child.  Fuel bounds the
recursion depth (the source diverges on parent cycles). -/
def calculateProgress : Nat → WBSItem → ItemMap → ℚ
  | 0, _, _ => 0
  | fuel + 1, item, items =>
    if item.childIds = [] then
      if item.progress > 0 then item.progress
      else
        match item.status with
        | .completed => 100
        | .inProgress => 50
        | .blocked => if item.progress = 0 then 0 else item.progress
        | .cancelled => 0
        | .notStarted => 0
    else
      let tc := sumChildrenAux (fun ch => calculateProgress fuel ch items) items item.childIds (0, 0)
      if tc.2 > 0 then jsRound (tc.1 / (tc.2 : ℚ)) else 0

end NexusPM

namespace NexusPM

/-! ## Decision data model (`decisionDataModel.ts`) -/

/-- `Criterion` — one weighted axis (direction is the optional literal
`'lower-is-better'`). -/
structure Criterion where
  key : Str
  label : Str
  weight : ℚ
  direction : Option Str
  description : Option Str
deriving DecidableEq

/-- `ConstraintStatus`. -/
inductive ConstraintStatus where
  | pass
  | fail
  | unknown
deriving DecidableEq

/-- `Constraint`. -/
structure Constraint where
  key : Str
  status : ConstraintStatus
  evidence : Option Str
deriving DecidableEq

/-- A sparse scores record (`Record<string, number>`). -/
abbrev Scores := List (Str × ℚ)

/-- Property read on a record. -/
def scoresGet (s : Scores) (k : Str) : Option ℚ :=
  match s.find? (fun e => e.1 = k) with
  | some e => some e.2
  | none => none

/-- Property assignment on a record. -/
def scoresSet : Scores → Str → ℚ → Scores
  | [], k, v => [(k, v)]
  | e :: rest, k, v => if e.1 = k then (k, v) :: rest else e :: scoresSet rest k v

/-- `DecisionOption`. -/
structure DecisionOption where
  id : Str
  title : Str
  parentId : Option Str
  status : Str
  scores : Scores
  constraints : List Constraint
  totalScore : Option ℚ
  rank : Option Nat
deriving DecidableEq

/-- `Risk`. -/
structure Risk where
  id : Str
  title : Str
  parentId : Option Str
  status : Str
  probability : ℚ
  impact : ℚ
  exposure : ℚ
  mitigation : Option Str
  owner : Option Str
  dueDate : Option Str
deriving DecidableEq

/-- `createDefaultOption` (the optional `totalScore`/`rank` fields start
absent). -/
def createDefaultOption (id title : Str) : DecisionOption where
  id := id
  title := title
  parentId := none
  status := str "not-started"
  scores := []
  constraints := []
  totalScore := none
  rank := none

/-- `createDefaultRisk`. -/
def createDefaultRisk (id title : Str) : Risk where
  id := id
  title := title
  parentId := none
  status := str "not-started"
  probability := 1
  impact := 1
  exposure := 1
  mitigation := none
  owner := none
  dueDate := none

/-- `normalizeConstraintStatus`. -/
def normalizeConstraintStatus (status : Option Str) : ConstraintStatus :=
  match status with
  | none => .unknown
  | some s =>
    if s = [] then .unknown
    else
      let n := trimStr (lowerStr s)
      if n = str "pass" ∨ n = str "充足" ∨ n = str "ok" ∨ n = str "true" then .pass
      else if n = str "fail" ∨ n = str "不充足" ∨ n = str "ng" ∨ n = str "false" then .fail
      else .unknown

/-- JS truthiness of an arbitrary value (for `c.key || ''`). -/
def jsTruthy : JsValue → Bool
  | .bool b => b
  | .num n => if n = 0 then false else true
  | .s v => !(v == [])
  | .arr _ => true
  | .obj _ => true
  | .nullv => false

/-- Property read on an object value (`c.key` on an `unknown` that
passed the `typeof c === 'object' && c !== null` filter); reads on
non-plain objects yield `undefined`. -/
def objGet : JsValue → Str → Option JsValue
  | .obj es, k =>
    match es.find? (fun e => e.1 = k) with
    | some e => some e.2
    | none => none
  | _, _ => none

/-! ## `jsParseFloat` — model of the JS `parseFloat` builtin

Exact on decimal literals with optional sign, fraction and exponent,
parsing the longest valid prefix and returning `none` (JS `NaN`) when no
digits are found (`"Infinity"` is outside the model). -/

/-- Numeric value of a digit run. -/
def digitsVal (ds : List Char) : Nat := ds.foldl (fun a c => 10 * a + (c.toNat - 48)) 0

/-- Model of `parseFloat`. -/
def jsParseFloat (s : Str) : Option ℚ :=
  let s0 := s.dropWhile isWs
  let sgn := match s0 with
    | '-' :: r => (true, r)
    | '+' :: r => (false, r)
    | _ => (false, s0)
  let ip := sgn.2.takeWhile Char.isDigit
  let s1 := sgn.2.drop ip.length
  let fp := match s1 with
    | '.' :: r => (r.takeWhile Char.isDigit, r.dropWhile Char.isDigit)
    | _ => ([], s1)
  if ip = [] ∧ fp.1 = [] then none
  else
    let base : ℚ := (digitsVal ip : ℚ) + (digitsVal fp.1 : ℚ) / ((10 : ℚ) ^ fp.1.length)
    let ex : ℤ := match fp.2 with
      | 'e' :: r | 'E' :: r =>
        let esgn := match r with
          | '-' :: rr => ((-1 : ℤ), rr)
          | '+' :: rr => ((1 : ℤ), rr)
          | _ => ((1 : ℤ), r)
        let eds := esgn.2.takeWhile Char.isDigit
        if eds = [] then 0 else esgn.1 * (digitsVal eds : ℤ)
      | _ => 0
    let v := base * (10 : ℚ) ^ ex
    some (if sgn.1 then -v else v)

/-! ## `DecisionParser.parseOption` and `DecisionParser.parseRisk` -/

/-- The per-entry conversion of the `scores` object: numbers kept,
strings `parseFloat`ed with `NaN ↦ 0`, anything else `0`. -/
def scoreValOf : JsValue → ℚ
  | .num n => n
  | .s sv => (jsParseFloat sv).getD 0
  | _ => 0

/-- One constraint entry (`c` has passed the object filter). -/
def parseConstraint (c : JsValue) : Constraint where
  key := match objGet c (str "key") with
    | some k => if jsTruthy k then jsToString k else []
    | none => []
  status := normalizeConstraintStatus (match objGet c (str "status") with
    | some (.s v) => some v
    | _ => none)
  evidence := match objGet c (str "evidence") with
    | some (.s v) =>
      match extractLinkTarget v with
      | some t => if t = [] then none else some t
      | none => none
    | _ => none

/-! `DecisionParser.parseOption`, embedded as named per-statement steps
in source order. -/

/-- `parseOption` step: parent backlink. -/
def optionParent (fm : Frontmatter) (option : DecisionOption) : DecisionOption :=
  match truthyStr (fmGet fm (str "parent")) with
  | some link => { option with parentId := extractLinkTarget link }
  | none => option

/-- `parseOption` step: status. -/
def optionStatus (fm : Frontmatter) (option : DecisionOption) : DecisionOption :=
  match fmGet fm (str "status") with
  | some (.s v) => { option with status := v }
  | _ => option

/-- `parseOption` step: the scores object (numbers kept, strings
`parseFloat`ed with `NaN ↦ 0`, anything else `0`; an array also passes
the `typeof === 'object'` guard and `Object.entries` keys it by decimal
index). -/
def optionScores (fm : Frontmatter) (option : DecisionOption) : DecisionOption :=
  match fmGet fm (str "scores") with
  | some (.obj entries) =>
    { option with scores := (entries.foldl
        (fun acc e => scoresSet acc e.1 (scoreValOf e.2)) option.scores) }
  | some (.arr es) =>
    { option with scores := (es.enum.foldl
        (fun acc e => scoresSet acc (natToStr e.1) (scoreValOf e.2)) option.scores) }
  | _ => option

/-- `parseOption` step: constraints. -/
def optionConstraints (fm : Frontmatter) (option : DecisionOption) : DecisionOption :=
  match fmGet fm (str "constraints") with
  | some (.arr cs) =>
    { option with constraints :=
        (((cs.filter (fun c => match c with
          | .obj _ => true
          | .arr _ => true
          | _ => false)).map parseConstraint).filter (fun c => c.key ≠ [])) }
  | _ => option

/-- `DecisionParser.parseOption`. -/
def parseOption (file : NoteFile) : DecisionOption :=
  let option := createDefaultOption file.path file.basename
  let option := match file.h1 with
    | some h => { option with title := h }
    | none => option
  match file.frontmatter with
  | none => option
  | some fm =>
    optionConstraints fm (optionScores fm (optionStatus fm (optionParent fm option)))

/-! `DecisionParser.parseRisk`, embedded as named per-statement steps in
source order. -/

/-- `parseRisk` step: parent backlink. -/
def riskParent (fm : Frontmatter) (risk : Risk) : Risk :=
  match truthyStr (fmGet fm (str "parent")) with
  | some link => { risk with parentId := extractLinkTarget link }
  | none => risk

/-- `parseRisk` step: status (any string accepted, no truthiness
guard). -/
def riskStatus (fm : Frontmatter) (risk : Risk) : Risk :=
  match fmGet fm (str "status") with
  | some (.s v) => { risk with status := v }
  | _ => risk

/-- `parseRisk` step: probability, accepted only when the declared value
is a number, clamped into `[1, 5]`. -/
def riskProbability (fm : Frontmatter) (risk : Risk) : Risk :=
  match fmGet fm (str "probability") with
  | some (.num n) => { risk with probability := max 1 (min 5 n) }
  | _ => risk

/-- `parseRisk` step: impact, same rule as probability. -/
def riskImpact (fm : Frontmatter) (risk : Risk) : Risk :=
  match fmGet fm (str "impact") with
  | some (.num n) => { risk with impact := max 1 (min 5 n) }
  | _ => risk

/-- `parseRisk` step: exposure recomputed from the clamped fields. -/
def riskExposure (risk : Risk) : Risk :=
  { risk with exposure := risk.probability * risk.impact }

/-- `parseRisk` step: mitigation (`extractLinkTarget(v) || v`). -/
def riskMitigation (fm : Frontmatter) (risk : Risk) : Risk :=
  match fmGet fm (str "mitigation") with
  | some (.s v) =>
    { risk with mitigation := match extractLinkTarget v with
      | some t => if t = [] then some v else some t
      | none => some v }
  | _ => risk

/-- `parseRisk` step: owner. -/
def riskOwner (fm : Frontmatter) (risk : Risk) : Risk :=
  match fmGet fm (str "owner") with
  | some (.s v) => { risk with owner := some v }
  | _ => risk

/-- `parseRisk` step: due date. -/
def riskDueDate (fm : Frontmatter) (risk : Risk) : Risk :=
  match fmGet fm (str "due-date") with
  | some (.s v) => { risk with dueDate := some v }
  | _ => risk

/-- `DecisionParser.parseRisk`. -/
def parseRisk (file : NoteFile) : Risk :=
  let risk := createDefaultRisk file.path file.basename
  let risk := match file.h1 with
    | some h => { risk with title := h }
    | none => risk
  match file.frontmatter with
  | none => risk
  | some fm =>
    riskDueDate fm (riskOwner fm (riskMitigation fm (riskExposure
      (riskImpact fm (riskProbability fm (riskStatus fm (riskParent fm risk)))))))

end NexusPM

namespace NexusPM

/-! ## Scoring logic (the MCDA scoring module) -/

/-- `DEFAULT_MAX_SCORE`. -/
def DEFAULT_MAX_SCORE : ℚ := 5

/-- `normalizeScore`: linear inversion `maxScore − score` for
lower-is-better criteria, identity otherwise. -/
def normalizeScore (score : ℚ) (criterion : Criterion) (maxScore : ℚ) : ℚ :=
  if criterion.direction = some (str "lower-is-better") then maxScore - score
  else score

/-- `calculateOptionScore`: early 0 for an empty criteria list, else the
accumulated `Σ weight · normalizeScore(rawScore)` with missing score
entries read as 0. -/
def calculateOptionScore (option : DecisionOption) (criteria : List Criterion)
    (maxScore : ℚ) : ℚ :=
  if criteria = [] then 0
  else criteria.foldl (fun totalScore criterion =>
    totalScore + criterion.weight *
      normalizeScore ((scoresGet option.scores criterion.key).getD 0) criterion maxScore) 0

/-- An option map, in insertion order. -/
abbrev OptionMap := List (Str × DecisionOption)

/-- `calculateAllScores`: every option with its `totalScore` filled in,
same iteration order. -/
def calculateAllScores (options : OptionMap) (criteria : List Criterion)
    (maxScore : ℚ) : OptionMap :=
  options.map (fun e => (e.1,
    { e.2 with totalScore := some (calculateOptionScore e.2 criteria maxScore) }))

/-- The comparator key `totalScore ?? 0`. -/
def optScore (o : DecisionOption) : ℚ := o.totalScore.getD 0

/-- Stable insertion into a descending-sorted list: the new element goes
after every strictly larger element and before equal ones it preceded,
reproducing the (stable) JS `sort((a, b) => (b.totalScore ?? 0) - (a.totalScore ?? 0))`. -/
def insertDescOpt (x : DecisionOption) : List DecisionOption → List DecisionOption
  | [] => [x]
  | y :: ys => if optScore x < optScore y then y :: insertDescOpt x ys else x :: y :: ys

/-- Stable descending sort by `totalScore ?? 0`. -/
def sortOptionsDesc : List DecisionOption → List DecisionOption
  | [] => []
  | x :: xs => insertDescOpt x (sortOptionsDesc xs)

/-- The ranking loop of `rankOptions`: `currentRank` starts at 1 and
jumps to `i + 1` exactly when the score strictly drops below the
previous entry's. -/
def assignRanksAux : List DecisionOption → Nat → Option ℚ → Nat → List DecisionOption
  | [], _, _, _ => []
  | o :: rest, i, previousScore, currentRank =>
    let score := optScore o
    let newRank := match previousScore with
      | some p => if score < p then i + 1 else currentRank
      | none => currentRank
    { o with rank := some newRank } :: assignRanksAux rest (i + 1) (some score) newRank

/-- `rankOptions`: score all options, sort descending, assign
competition ranks. -/
def rankOptions (options : OptionMap) (criteria : List Criterion)
    (maxScore : ℚ) : List DecisionOption :=
  let scoredOptions := calculateAllScores options criteria maxScore
  let sorted := sortOptionsDesc (scoredOptions.map (·.2))
  assignRanksAux sorted 0 none 1

end NexusPM

namespace NexusPM

/-! ## Claim-side vocabulary and concrete fixtures -/

/-- The spec's notion of stripping the extension from a base filename:
drop everything from the last dot on (used to compare the spec's step
(e) against the source's first-occurrence `.replace('.md', '')`). -/
def specStripExtension (s : Str) : Str :=
  match (s.reverse.dropWhile (fun c => !(c == '.'))) with
  | '.' :: r => r.reverse
  | _ => s

/-- The spec's "non-empty collection" test on a frontmatter value. -/
def isNonemptyArray : Option JsValue → Bool
  | some (.arr es) => !es.isEmpty
  | _ => false

/-- Fixture: a leaf task at explicit progress 100. -/
def exLeafA : WBSItem :=
  { createDefaultWBSItem (str "p/a.md") (str "a") with progress := 100 }

/-- Fixture: a leaf task at progress 0 / not started. -/
def exLeafB : WBSItem := createDefaultWBSItem (str "p/b.md") (str "b")

/-- Fixture: a parent of the 100-progress and 0-progress leaves. -/
def exParent : WBSItem :=
  { createDefaultWBSItem (str "p/r.md") (str "r") with
    childIds := [str "p/a.md", str "p/b.md"] }

/-- Fixture: the two-leaf item map. -/
def exProgressMap : ItemMap :=
  [(str "p/r.md", exParent), (str "p/a.md", exLeafA), (str "p/b.md", exLeafB)]

/-- Fixture: leaves at 100 under two intermediate nodes. -/
def exLeafC : WBSItem :=
  { createDefaultWBSItem (str "p/c.md") (str "c") with progress := 100 }

/-- Fixture: second leaf at 100. -/
def exLeafD : WBSItem :=
  { createDefaultWBSItem (str "p/d.md") (str "d") with progress := 100 }

/-- Fixture: middle node over `c`. -/
def exMidA : WBSItem :=
  { createDefaultWBSItem (str "p/m1.md") (str "m1") with childIds := [str "p/c.md"] }

/-- Fixture: middle node over `d`. -/
def exMidB : WBSItem :=
  { createDefaultWBSItem (str "p/m2.md") (str "m2") with childIds := [str "p/d.md"] }

/-- Fixture: grandparent over the two middle nodes. -/
def exGrand : WBSItem :=
  { createDefaultWBSItem (str "p/g.md") (str "g") with
    childIds := [str "p/m1.md", str "p/m2.md"] }

/-- Fixture: the three-level item map. -/
def exGrandMap : ItemMap :=
  [(str "p/g.md", exGrand), (str "p/m1.md", exMidA), (str "p/m2.md", exMidB),
   (str "p/c.md", exLeafC), (str "p/d.md", exLeafD)]

/-- Fixture: a single weight-1 criterion. -/
def exCriterion : Criterion where
  key := str "v"
  label := str "v"
  weight := 1
  direction := none
  description := none

/-- Fixture: an option scoring `q` on the single criterion. -/
def exOpt (id : String) (q : ℚ) : DecisionOption :=
  { createDefaultOption (str id) (str id) with scores := [(str "v", q)] }

/-- Fixture: options A, B, C with total scores 27, 31, 27. -/
def exRankOptions : OptionMap :=
  [(str "A", exOpt "A" 27), (str "B", exOpt "B" 31), (str "C", exOpt "C" 27)]

/-- Fixture (C5): a child whose declared parent target is `a.mdx`. -/
def cexChild : WBSItem :=
  { createDefaultWBSItem (str "p/c.md") (str "c") with parentId := some (str "a.mdx") }

/-- Fixture (C5): the intended parent, filed under `p/sub/a.mdx.md`. -/
def cexParent : WBSItem := createDefaultWBSItem (str "p/sub/a.mdx.md") (str "a.mdx")

/-- Fixture (C5): a node whose extracted parent target is the empty
string (as a note with `parent: "[x](.md)"` produces). -/
def cexEmpty : WBSItem :=
  { createDefaultWBSItem (str "p/e.md") (str "e") with parentId := some [] }

/-- Fixture (C5): the counterexample project before resolution. -/
def cexProject : WBSProject where
  id := str "p"
  name := str "p"
  rootItemIds := []
  items := [(str "p/c.md", cexChild), (str "p/sub/a.mdx.md", cexParent),
    (str "p/e.md", cexEmpty)]

/-- Fixture (C6): auto-numbered root. -/
def numA : WBSItem := createDefaultWBSItem (str "p/a.md") (str "a")

/-- Fixture (C6): root with the authored number `X` and two children
listed unsorted. -/
def numB : WBSItem :=
  { createDefaultWBSItem (str "p/b.md") (str "b") with
    wbsNumber := str "X"
    childIds := [str "p/b2.md", str "p/b1.md"] }

/-- Fixture (C6): first child of the authored root. -/
def numB1 : WBSItem := createDefaultWBSItem (str "p/b1.md") (str "b1")

/-- Fixture (C6): second child of the authored root. -/
def numB2 : WBSItem := createDefaultWBSItem (str "p/b2.md") (str "b2")

/-- Fixture (C6): auto-numbered root after the authored one, itself a
parent of two children listed unsorted. -/
def numC : WBSItem :=
  { createDefaultWBSItem (str "p/c.md") (str "c") with
    childIds := [str "p/c2.md", str "p/c1.md"] }

/-- Fixture (C6): first child of the auto-numbered root `c`. -/
def numC1 : WBSItem := createDefaultWBSItem (str "p/c1.md") (str "c1")

/-- Fixture (C6): second child of `c`, itself a parent. -/
def numC2 : WBSItem :=
  { createDefaultWBSItem (str "p/c2.md") (str "c2") with
    childIds := [str "p/c21.md"] }

/-- Fixture (C6): grandchild of `c`, at depth 3. -/
def numC21 : WBSItem := createDefaultWBSItem (str "p/c21.md") (str "c21")

/-- Fixture (C6): the resolved numbering project (roots already sorted,
as `resolveRelationships` leaves them). -/
def numProject : WBSProject where
  id := str "p"
  name := str "p"
  rootItemIds := [str "p/a.md", str "p/b.md", str "p/c.md"]
  items := [(str "p/a.md", numA), (str "p/b.md", numB), (str "p/b1.md", numB1),
    (str "p/b2.md", numB2), (str "p/c.md", numC), (str "p/c1.md", numC1),
    (str "p/c2.md", numC2), (str "p/c21.md", numC21)]

/-- Fixture (C7): frontmatter declaring `status: in-progress` and a
non-empty `completed` array whose sole element is the falsy string
`"0"`. -/
def c7fm : Frontmatter :=
  [(str "status", .s (str "in-progress")), (str "completed", .arr [.s (str "0")])]

/-- Fixture (C7): the note carrying `c7fm`. -/
def c7file : NoteFile where
  path := str "p/t.md"
  basename := str "t"
  frontmatter := some c7fm
  h1 := none

/-- Fixture (C7 witness): `status: in-progress` with boolean
`completed: true`. -/
def c7wfm : Frontmatter :=
  [(str "status", .s (str "in-progress")), (str "completed", .bool true)]

/-- Fixture (C7 witness): the note carrying `c7wfm`. -/
def c7wfile : NoteFile where
  path := str "p/t.md"
  basename := str "t"
  frontmatter := some c7wfm
  h1 := none

/-- Fixture (C8): a risk note declaring `probability: "3"` as a
string. -/
def c8riskFile : NoteFile where
  path := str "p/r.md"
  basename := str "r"
  frontmatter := some [(str "probability", .s (str "3"))]
  h1 := none

/-- Fixture (C8): an option note whose scores are the strings `"4"`
(parseable) and `"bad"` (unparseable). -/
def c8optFile : NoteFile where
  path := str "p/o.md"
  basename := str "o"
  frontmatter := some [(str "scores",
    .obj [(str "cost", .s (str "4")), (str "q", .s (str "bad"))])]
  h1 := none

/-- Fixture (C9): a markdown note in the sibling folder `project2`. -/
def c9file : NoteFile where
  path := str "project2/task.md"
  basename := str "task"
  frontmatter := none
  h1 := none

/-- Fixture (C10): the original lone root note `p/r.md`. -/
def c10r : NoteFile where
  path := str "p/r.md"
  basename := str "r"
  frontmatter := none
  h1 := none

/-- Fixture (C10): the newly created note `p/a.md`, sorting before
`p/r.md`. -/
def c10a : NoteFile where
  path := str "p/a.md"
  basename := str "a"
  frontmatter := none
  h1 := none

end NexusPM

namespace NexusPM

/-! ## Claim-side resolution vocabulary (C5) -/

/-- JS falsiness of a nullable string (`!item.parentId`): null or the
empty string. -/
def jsFalsy : Option Str → Bool
  | none => true
  | some t => t = []

/-- The claim's resolution chain, written as the (a)-(e) cascade: exact
id, `folder/target.md`, `folder/target`, `target.md`, then the first key
whose base filename with its first `".md"` occurrence removed equals the
target. -/
def claimResolveParent (t folder : Str) (m : ItemMap) : Option Str :=
  if alistHas m t then some t
  else if alistHas m (folder ++ str "/" ++ t ++ str ".md") then
    some (folder ++ str "/" ++ t ++ str ".md")
  else if alistHas m (folder ++ str "/" ++ t) then some (folder ++ str "/" ++ t)
  else if alistHas m (t ++ str ".md") then some (t ++ str ".md")
  else (alistKeys m).find? (fun ip => removeFirstMd (basenameOf ip) = t)

/-- The parent an item contributes a child edge to: a non-empty declared
target resolved through the cascade (an absent or empty target links
nowhere). -/
def resolvedLink (m : ItemMap) (folder : Str) (it : WBSItem) : Option Str :=
  match it.parentId with
  | some t => if t = [] then none else claimResolveParent t folder m
  | none => none

/-- The `parentId` an item ends up with after resolution: a non-empty
declared target is replaced by its resolution (null when unresolvable);
a null or empty target is left untouched. -/
def newParentId (m : ItemMap) (folder : Str) (it : WBSItem) : Option Str :=
  match it.parentId with
  | some t => if t = [] then some t else claimResolveParent t folder m
  | none => none

/-- The child-edge contribution of key `c` of the original map. -/
def cLink (m : ItemMap) (folder : Str) (c : Str) : Option Str :=
  match alistGet m c with
  | some cit => resolvedLink m folder cit
  | none => none

/-- Claim-side numbering walk: the dotted scheme of the numbering rule,
computed over the ORIGINAL item map with no mutation.  A visited node
keeps an authored (non-empty) number verbatim; otherwise it takes its
1-based position at the root level, or `pre ++ "." ++ position` below
it; its children are then numbered relative to that number, in
lexicographically sorted order, and every sibling uses its raw
positional index.  The fuel mirrors the source recursion's call
pattern. -/
def specNumber : Nat → ItemMap → Str → List Str → Nat → List (Str × Str)
  | 0, _, _, _, _ => []
  | _ + 1, _, _, [], _ => []
  | fuel + 1, m, pre, id :: rest, idx =>
    match alistGet m id with
    | none => specNumber fuel m pre rest (idx + 1)
    | some item =>
      let num := if item.wbsNumber = [] then
          (if pre = [] then natToStr (idx + 1) else pre ++ '.' :: natToStr (idx + 1))
        else item.wbsNumber
      (id, num) ::
        (specNumber fuel m num (sortStrs item.childIds) 0 ++
          specNumber fuel m pre rest (idx + 1))

/-! ## General lemmas -/

theorem foldl_add_eq_sum (f : Criterion → ℚ) (l : List Criterion) (a : ℚ) :
    l.foldl (fun acc c => acc + f c) a = a + (l.map f).sum := by
  induction l generalizing a with
  | nil => simp
  | cons c cs ih => simp [ih, add_assoc]

theorem sumChildrenAux_eq (f : WBSItem → ℚ) (items : ItemMap) (l : List Str)
    (t : ℚ) (c : Nat) :
    sumChildrenAux f items l (t, c) =
      (t + ((l.filterMap (fun cid => (alistGet items cid).map f)).sum),
       c + (l.filterMap (fun cid => (alistGet items cid).map f)).length) := by
  induction l generalizing t c with
  | nil => simp [sumChildrenAux]
  | cons cid rest ih =>
    simp only [sumChildrenAux, List.filterMap_cons]
    cases h : alistGet items cid with
    | none => simp [h, ih]
    | some child => simp [h, ih, add_assoc, Nat.add_assoc, Nat.add_comm 1]

theorem assignRanksAux_map_erase (l : List DecisionOption) (i : Nat)
    (p : Option ℚ) (c : Nat) :
    (assignRanksAux l i p c).map (fun o => { o with rank := none }) =
      l.map (fun o => { o with rank := none }) := by
  induction l generalizing i p c with
  | nil => rfl
  | cons o rest ih => simp [assignRanksAux, ih]

theorem assignRanksAux_map_score (l : List DecisionOption) (i : Nat)
    (p : Option ℚ) (c : Nat) :
    (assignRanksAux l i p c).map optScore = l.map optScore := by
  induction l generalizing i p c with
  | nil => rfl
  | cons o rest ih => simp [assignRanksAux, ih, optScore]

theorem insertDescOpt_perm (x : DecisionOption) (l : List DecisionOption) :
    (insertDescOpt x l).Perm (x :: l) := by
  induction l with
  | nil => rfl
  | cons y ys ih =>
    unfold insertDescOpt
    by_cases h : optScore x < optScore y
    · simp only [if_pos h]
      exact (ih.cons y).trans (List.Perm.swap x y ys)
    · simp [h]

theorem sortOptionsDesc_perm (l : List DecisionOption) :
    (sortOptionsDesc l).Perm l := by
  induction l with
  | nil => rfl
  | cons x xs ih =>
    exact (insertDescOpt_perm x (sortOptionsDesc xs)).trans (ih.cons x)

theorem insertDescOpt_head_cases (x : DecisionOption) (l : List DecisionOption) :
    (insertDescOpt x l).head? = some x ∨
      ((insertDescOpt x l).head? = l.head? ∧ l ≠ []) := by
  cases l with
  | nil => left; rfl
  | cons y ys =>
    unfold insertDescOpt
    by_cases h : optScore x < optScore y
    · right; simp [h]
    · left; simp [h]

theorem chain_insertDescOpt (x : DecisionOption) (l : List DecisionOption)
    (hl : List.Chain' (fun a b => optScore b ≤ optScore a) l) :
    List.Chain' (fun a b => optScore b ≤ optScore a) (insertDescOpt x l) := by
  induction l with
  | nil => simp [insertDescOpt]
  | cons y ys ih =>
    unfold insertDescOpt
    by_cases h : optScore x < optScore y
    · simp only [if_pos h]
      have hys := (List.chain'_cons'.mp hl).2
      have htail := ih hys
      apply List.chain'_cons'.mpr
      refine ⟨?_, htail⟩
      intro z hz
      rcases insertDescOpt_head_cases x ys with hc | ⟨hc, hne⟩
      · rw [hc] at hz
        cases hz
        exact le_of_lt h
      · rw [hc] at hz
        exact (List.chain'_cons'.mp hl).1 z hz
    · simp only [if_neg h]
      apply List.chain'_cons'.mpr
      refine ⟨?_, hl⟩
      intro z hz
      simp at hz
      cases hz
      exact le_of_not_lt h

theorem chain_sortOptionsDesc (l : List DecisionOption) :
    List.Chain' (fun a b => optScore b ≤ optScore a) (sortOptionsDesc l) := by
  induction l with
  | nil => simp [sortOptionsDesc]
  | cons x xs ih => exact chain_insertDescOpt x _ ih

theorem assignRanksAux_get_succ (l : List DecisionOption) (i0 : Nat)
    (prev : Option ℚ) (cur : Nat) (j : Nat) :
    match (assignRanksAux l i0 prev cur).get? (j + 1),
        (assignRanksAux l i0 prev cur).get? j with
    | some b, some a =>
      b.rank = if optScore b < optScore a then some (i0 + j + 2) else a.rank
    | _, _ => True := by
  induction l generalizing i0 prev cur j with
  | nil => simp [assignRanksAux]
  | cons o rest ih =>
    cases j with
    | zero =>
      cases rest with
      | nil => simp [assignRanksAux]
      | cons b rest2 =>
        simp only [assignRanksAux, List.get?, optScore]
        split <;> rfl
    | succ j =>
      have h0 := ih (i0 + 1) (some (optScore o))
        (match prev with
          | some p => if optScore o < p then i0 + 1 else cur
          | none => cur) j
      have h2 : i0 + 1 + j + 2 = i0 + (j + 1) + 2 := by omega
      rw [h2] at h0
      simp only [assignRanksAux, List.get?]
      exact h0

end NexusPM

namespace NexusPM

theorem tailSteps_preserve (mapping : WBSPropertyMapping) (fm : Frontmatter) (it : WBSItem) :
    (stepTags fm (stepWbsNumber mapping fm (stepPriority mapping fm (stepActual mapping fm
      (stepEstimated mapping fm it))))).status = it.status ∧
    (stepTags fm (stepWbsNumber mapping fm (stepPriority mapping fm (stepActual mapping fm
      (stepEstimated mapping fm it))))).progress = it.progress := by
  unfold stepTags stepWbsNumber stepPriority stepActual stepEstimated
  constructor <;> (repeat' split) <;> rfl

theorem headSteps_preserve_progress (mapping : WBSPropertyMapping) (fm : Frontmatter)
    (it : WBSItem) :
    (stepDates mapping fm (stepAssignee mapping fm (stepStatus mapping fm
      (stepParent mapping fm it)))).progress = it.progress := by
  unfold stepDates stepAssignee stepStatus stepParent
  (repeat' split) <;> rfl

theorem stepCompleted_fires (mapping : WBSPropertyMapping) (fm : Frontmatter)
    (it : WBSItem) (v : JsValue) (h2 : fmGet fm mapping.completed = some v)
    (h3 : isCompletedJs v = true) :
    stepCompleted mapping fm it = { it with progress := 100, status := .completed } := by
  unfold stepCompleted
  rw [h2]
  simp [h3]

theorem stepProgress_bounds (mapping : WBSPropertyMapping) (fm : Frontmatter)
    (it : WBSItem) (h0 : 0 ≤ it.progress) (h1 : it.progress ≤ 100) :
    0 ≤ (stepProgress mapping fm it).progress ∧
      (stepProgress mapping fm it).progress ≤ 100 := by
  unfold stepProgress
  split
  · exact ⟨le_max_left _ _, max_le (by norm_num) (min_le_left _ _)⟩
  · exact ⟨h0, h1⟩

theorem stepCompleted_bounds (mapping : WBSPropertyMapping) (fm : Frontmatter)
    (it : WBSItem) (h0 : 0 ≤ it.progress) (h1 : it.progress ≤ 100) :
    0 ≤ (stepCompleted mapping fm it).progress ∧
      (stepCompleted mapping fm it).progress ≤ 100 := by
  unfold stepCompleted
  (repeat' split) <;> norm_num <;> exact ⟨h0, h1⟩

theorem riskSteps_preserve_clamped (fm : Frontmatter) (r : Risk) :
    ((riskDueDate fm (riskOwner fm (riskMitigation fm (riskExposure r)))).probability
        = r.probability ∧
      (riskDueDate fm (riskOwner fm (riskMitigation fm (riskExposure r)))).impact
        = r.impact) ∧
    ((riskImpact fm r).probability = r.probability) ∧
    ((riskProbability fm r).impact = r.impact) ∧
    ((riskStatus fm (riskParent fm r)).probability = r.probability ∧
      (riskStatus fm (riskParent fm r)).impact = r.impact) := by
  refine ⟨⟨?_, ?_⟩, ?_, ?_, ?_, ?_⟩ <;>
    simp only [riskDueDate, riskOwner, riskMitigation, riskExposure, riskImpact,
      riskProbability, riskStatus, riskParent] <;>
    (repeat' split) <;> rfl

theorem parseRisk_probability_some (file : NoteFile) (fm : Frontmatter)
    (hfm : file.frontmatter = some fm) :
    (parseRisk file).probability =
      (match fmGet fm (str "probability") with
        | some (.num n) => max 1 (min 5 n)
        | _ => 1) := by
  have base : (match file.h1 with
      | some h => { createDefaultRisk file.path file.basename with title := h }
      | none => createDefaultRisk file.path file.basename).probability = 1 := by
    cases file.h1 <;> simp [createDefaultRisk]
  have heq : parseRisk file =
      riskDueDate fm (riskOwner fm (riskMitigation fm (riskExposure
        (riskImpact fm (riskProbability fm (riskStatus fm (riskParent fm
          (match file.h1 with
            | some h => { createDefaultRisk file.path file.basename with title := h }
            | none => createDefaultRisk file.path file.basename))))))))  := by
    unfold parseRisk
    rw [hfm]
  rw [heq, (riskSteps_preserve_clamped fm _).1.1, (riskSteps_preserve_clamped fm _).2.1]
  unfold riskProbability
  split <;> simp_all [(riskSteps_preserve_clamped fm _).2.2.2.1]

theorem parseRisk_impact_some (file : NoteFile) (fm : Frontmatter)
    (hfm : file.frontmatter = some fm) :
    (parseRisk file).impact =
      (match fmGet fm (str "impact") with
        | some (.num n) => max 1 (min 5 n)
        | _ => 1) := by
  have base : (match file.h1 with
      | some h => { createDefaultRisk file.path file.basename with title := h }
      | none => createDefaultRisk file.path file.basename).impact = 1 := by
    cases file.h1 <;> simp [createDefaultRisk]
  have heq : parseRisk file =
      riskDueDate fm (riskOwner fm (riskMitigation fm (riskExposure
        (riskImpact fm (riskProbability fm (riskStatus fm (riskParent fm
          (match file.h1 with
            | some h => { createDefaultRisk file.path file.basename with title := h }
            | none => createDefaultRisk file.path file.basename))))))))  := by
    unfold parseRisk
    rw [hfm]
  rw [heq, (riskSteps_preserve_clamped fm _).1.2]
  unfold riskImpact
  split <;> simp_all [(riskSteps_preserve_clamped fm _).2.2.1,
    (riskSteps_preserve_clamped fm _).2.2.2.2]

theorem parseRisk_none (file : NoteFile) (hfm : file.frontmatter = none) :
    (parseRisk file).probability = 1 ∧ (parseRisk file).impact = 1 := by
  unfold parseRisk
  rw [hfm]
  cases file.h1 <;> simp [createDefaultRisk]

end NexusPM

namespace NexusPM

theorem parseFile_progress_bounds (mapping : WBSPropertyMapping) (file : NoteFile) :
    0 ≤ (parseFile mapping file).progress ∧ (parseFile mapping file).progress ≤ 100 := by
  unfold parseFile
  cases hfm : file.frontmatter with
  | none => cases file.h1 <;> simp [createDefaultWBSItem]
  | some fm =>
    simp only
    have h0 : (stepDates mapping fm (stepAssignee mapping fm (stepStatus mapping fm
        (stepParent mapping fm
          (match file.h1 with
            | some h => { createDefaultWBSItem file.path file.basename with title := h }
            | none => createDefaultWBSItem file.path file.basename))))).progress = 0 := by
      rw [headSteps_preserve_progress]
      cases file.h1 <;> simp [createDefaultWBSItem]
    have hp := stepProgress_bounds mapping fm _ (le_of_eq h0.symm) (by rw [h0]; norm_num)
    have hc := stepCompleted_bounds mapping fm _ hp.1 hp.2
    rw [(tailSteps_preserve mapping fm _).2]
    exact hc

/-! ## The claims -/

/-- C1: `validateSingleRoot` reports `valid` exactly when the project
has a single root; zero roots yield no offending-file list, `N > 1`
roots yield exactly the root-id list; the check is a pure function of
the project and leaves it untouched. -/
theorem validateSingleRoot_spec (p : WBSProject) :
    (validateSingleRoot p).valid = decide (p.rootItemIds.length = 1) ∧
    (validateSingleRoot p).errorFilePaths =
      (if 1 < p.rootItemIds.length then some p.rootItemIds else none) := by
  unfold validateSingleRoot
  rcases h : p.rootItemIds.length with _ | n
  · simp [h]
  · rcases n with _ | n
    · simp
    · simp [Nat.succ_lt_succ]

/-- C2: `calculateProgress` returns, for a childless item, its positive
explicit progress or the status default (completed 100, in-progress 50,
blocked its own progress-or-0, cancelled and not-started 0); for an item
with children, the rounded arithmetic mean of the recursively computed
progress of the children that resolve in the map, and 0 when none
resolve.  Concretely a parent of children at 100 and 0 reports 50, and a
grandparent whose two subtrees are all at 100 reports 100. -/
theorem calculateProgress_spec (fuel : Nat) (item : WBSItem) (items : ItemMap) :
    (calculateProgress (fuel + 1) item items =
      if item.childIds = [] then
        (if item.progress > 0 then item.progress
         else if item.status = .completed then 100
         else if item.status = .inProgress then 50
         else if item.status = .blocked then (if item.progress = 0 then 0 else item.progress)
         else 0)
      else
        (if (item.childIds.filterMap
              (fun cid => (alistGet items cid).map
                (fun ch => calculateProgress fuel ch items))) = [] then 0
         else jsRound
           ((item.childIds.filterMap
              (fun cid => (alistGet items cid).map
                (fun ch => calculateProgress fuel ch items))).sum /
            ((item.childIds.filterMap
              (fun cid => (alistGet items cid).map
                (fun ch => calculateProgress fuel ch items))).length : ℚ)))) ∧
    calculateProgress 2 exParent exProgressMap = 50 ∧
    calculateProgress 3 exGrand exGrandMap = 100 := by
  refine ⟨?_, ?_, ?_⟩
  · show (if item.childIds = [] then _ else _) = _
    by_cases h : item.childIds = []
    · simp only [if_pos h]
      cases item.status <;> simp
    · simp only [if_neg h]
      rw [sumChildrenAux_eq]
      simp only [zero_add, Nat.zero_add]
      rcases hl : item.childIds.filterMap
          (fun cid => (alistGet items cid).map
            (fun ch => calculateProgress fuel ch items)) with _ | ⟨x, xs⟩
      · simp
      · simp
  · simp [calculateProgress, exParent, exProgressMap, exLeafA, exLeafB,
      sumChildrenAux, alistGet, createDefaultWBSItem, str, jsRound]
    norm_num
  · simp [calculateProgress, exGrand, exGrandMap, exMidA, exMidB, exLeafC, exLeafD,
      sumChildrenAux, alistGet, createDefaultWBSItem, str, jsRound]
    norm_num

/-- C3: an option's total score is `Σ weight · effectiveScore` over the
criteria, the effective score being the raw score (0 when the key is
absent from the sparse scores map) for higher-is-better criteria and
`maxScore − raw` for lower-is-better ones; an empty criteria list yields
total 0. -/
theorem calculateOptionScore_spec (option : DecisionOption)
    (criteria : List Criterion) (maxScore : ℚ) :
    calculateOptionScore option criteria maxScore =
      (criteria.map (fun c =>
        c.weight * (if c.direction = some (str "lower-is-better") then
          maxScore - ((scoresGet option.scores c.key).getD 0)
        else
          (scoresGet option.scores c.key).getD 0))).sum ∧
    calculateOptionScore option [] maxScore = 0 := by
  constructor
  · unfold calculateOptionScore
    rcases criteria with _ | ⟨c, cs⟩
    · simp
    · simp only [if_neg (List.cons_ne_nil c cs)]
      rw [foldl_add_eq_sum (fun c =>
        c.weight * normalizeScore ((scoresGet option.scores c.key).getD 0) c maxScore)]
      simp [normalizeScore]
  · simp [calculateOptionScore]

/-- C4: `rankOptions` returns the scored options sorted descending by
total score (a permutation of the scored option set), the first entry at
rank 1, an entry with the same score as its predecessor repeating the
predecessor's rank, and a strictly lower-scored entry taking its 1-based
sorted position; scores `{A:27, B:31, C:27}` yield order `[B, A, C]`
with ranks `[1, 2, 2]`. -/
theorem rankOptions_spec (options : OptionMap) (criteria : List Criterion)
    (maxScore : ℚ) :
    List.Chain' (fun a b => optScore b ≤ optScore a)
      (rankOptions options criteria maxScore) ∧
    ((rankOptions options criteria maxScore).map (fun o => { o with rank := none })).Perm
      ((calculateAllScores options criteria maxScore).map (fun e => { e.2 with rank := none })) ∧
    (match (rankOptions options criteria maxScore).head? with
      | some o => o.rank = some 1
      | none => True) ∧
    (∀ j : Nat,
      match (rankOptions options criteria maxScore).get? (j + 1),
          (rankOptions options criteria maxScore).get? j with
      | some b, some a =>
        b.rank = if optScore b < optScore a then some (j + 2) else a.rank
      | _, _ => True) ∧
    (rankOptions exRankOptions [exCriterion] 5).map (fun o => (o.id, o.rank)) =
      [(str "B", some 1), (str "A", some 2), (str "C", some 2)] := by
  refine ⟨?_, ?_, ?_, ?_, ?_⟩
  · unfold rankOptions
    have hs := chain_sortOptionsDesc ((calculateAllScores options criteria maxScore).map (·.2))
    have hmap := assignRanksAux_map_score
      (sortOptionsDesc ((calculateAllScores options criteria maxScore).map (·.2))) 0 none 1
    have hs2 : List.Chain' (fun u v : ℚ => v ≤ u)
        ((sortOptionsDesc ((calculateAllScores options criteria maxScore).map (·.2))).map optScore) :=
      (List.chain'_map optScore).mpr hs
    rw [← hmap] at hs2
    exact (List.chain'_map optScore).mp hs2
  · unfold rankOptions
    rw [assignRanksAux_map_erase]
    have hperm := sortOptionsDesc_perm ((calculateAllScores options criteria maxScore).map (·.2))
    have := hperm.map (fun o => { o with rank := (none : Option Nat) })
    simpa [Function.comp] using this
  · unfold rankOptions
    simp only
    cases hs : sortOptionsDesc ((calculateAllScores options criteria maxScore).map (·.2)) with
    | nil => simp [assignRanksAux]
    | cons o rest => simp [assignRanksAux]
  · intro j
    unfold rankOptions
    have := assignRanksAux_get_succ
      (sortOptionsDesc ((calculateAllScores options criteria maxScore).map (·.2))) 0 none 1 j
    simpa using this
  · have h1 : calculateAllScores exRankOptions [exCriterion] 5 =
        [(str "A", { exOpt "A" 27 with totalScore := some 27 }),
         (str "B", { exOpt "B" 31 with totalScore := some 31 }),
         (str "C", { exOpt "C" 27 with totalScore := some 27 })] := by
      simp [calculateAllScores, exRankOptions, calculateOptionScore, normalizeScore,
        scoresGet, exCriterion, exOpt, createDefaultOption, str]
    unfold rankOptions
    rw [h1]
    norm_num [sortOptionsDesc, insertDescOpt, optScore, assignRanksAux, exOpt,
      createDefaultOption, str]

end NexusPM

namespace NexusPM

/-- C7 counterexample: a `completed` field that is a non-empty collection
whose sole element is the falsy string `"0"` does NOT force
status=completed/progress=100 — the extracted item keeps its declared
`in-progress` status and progress 0. -/
theorem parseFile_completed_collection_cex :
    isNonemptyArray (fmGet c7fm (str "completed")) = true ∧
    (parseFile DEFAULT_PROPERTY_MAPPING c7file).status = .inProgress ∧
    (parseFile DEFAULT_PROPERTY_MAPPING c7file).progress = 0 := by
  decide

/-- C7 (amended): when the completion field is present and truthy under
the source's table — boolean `true`, nonzero number, non-empty
non-`"false"` non-`"0"` string, an array containing at least one truthy
element (mere non-emptiness does not suffice), or any non-null object —
the extracted item gets status=completed and progress=100, overriding
every separately declared status or progress value. -/
theorem parseFile_completed_override (mapping : WBSPropertyMapping) (file : NoteFile)
    (fm : Frontmatter) (v : JsValue) (h1 : file.frontmatter = some fm)
    (h2 : fmGet fm mapping.completed = some v) (h3 : isCompletedJs v = true) :
    (parseFile mapping file).status = .completed ∧ (parseFile mapping file).progress = 100 := by
  unfold parseFile
  rw [h1]
  simp only
  rw [stepCompleted_fires mapping fm _ v h2 h3]
  have := tailSteps_preserve mapping fm
    ({ stepProgress mapping fm (stepDates mapping fm (stepAssignee mapping fm
      (stepStatus mapping fm (stepParent mapping fm
        (match file.h1 with
          | some h => { createDefaultWBSItem file.path file.basename with title := h }
          | none => createDefaultWBSItem file.path file.basename))))) with
      progress := 100, status := .completed })
  exact ⟨this.1, this.2⟩

/-- C7 witness: a note declaring `status: in-progress` with a boolean
`completed: true` extracts as completed at progress 100. -/
theorem parseFile_completed_override_witness :
    (parseFile DEFAULT_PROPERTY_MAPPING c7wfile).status = .completed ∧
    (parseFile DEFAULT_PROPERTY_MAPPING c7wfile).progress = 100 :=
  parseFile_completed_override DEFAULT_PROPERTY_MAPPING c7wfile c7wfm (.bool true)
    rfl rfl rfl

/-- C8 counterexample: `probability: "3"` — a numeric string that JS
`parseFloat` would read as 3 — is not parsed by `parseRisk`; the
extracted probability is the default 1, where the claim requires 3. -/
theorem parseRisk_string_probability_cex :
    jsParseFloat (str "3") = some 3 ∧ (parseRisk c8riskFile).probability = 1 := by
  constructor
  · simp [jsParseFloat, str, digitsVal, isWs]
  · decide

/-- C8 (amended): extracted probability and impact always lie in
`[1, 5]`; a probability declared as a string — numeric or not — falls
back to the default 1 (only numbers are accepted); option score entries
declared as strings ARE parsed (`parseFloat`, `NaN ↦ 0`), e.g. `"4" ↦ 4`
and `"bad" ↦ 0`; extracted WBS progress always lies in `[0, 100]`. -/
theorem parse_numeric_fields_spec :
    (∀ file : NoteFile,
      1 ≤ (parseRisk file).probability ∧ (parseRisk file).probability ≤ 5 ∧
      1 ≤ (parseRisk file).impact ∧ (parseRisk file).impact ≤ 5) ∧
    (∀ (file : NoteFile) (fm : Frontmatter) (s : Str),
      file.frontmatter = some fm → fmGet fm (str "probability") = some (.s s) →
      (parseRisk file).probability = 1) ∧
    (parseOption c8optFile).scores = [(str "cost", 4), (str "q", 0)] ∧
    (∀ (mapping : WBSPropertyMapping) (file : NoteFile),
      0 ≤ (parseFile mapping file).progress ∧ (parseFile mapping file).progress ≤ 100) := by
  refine ⟨?_, ?_, ?_, ?_⟩
  · intro file
    cases hfm : file.frontmatter with
    | none =>
      have h := parseRisk_none file hfm
      rw [h.1, h.2]
      norm_num
    | some fm =>
      rw [parseRisk_probability_some file fm hfm, parseRisk_impact_some file fm hfm]
      constructor
      · split
        · exact le_max_left _ _
        · norm_num
      constructor
      · split
        · exact max_le (by norm_num) (min_le_left _ _)
        · norm_num
      constructor
      · split
        · exact le_max_left _ _
        · norm_num
      · split
        · exact max_le (by norm_num) (min_le_left _ _)
        · norm_num
  · intro file fm s h1 h2
    rw [parseRisk_probability_some file fm h1, h2]
  · simp [parseOption, optionConstraints, optionScores, optionStatus, optionParent,
      createDefaultOption, c8optFile, fmGet, scoresSet, scoreValOf, jsParseFloat,
      str, digitsVal, isWs, truthyStr]
  · exact parseFile_progress_bounds

/-- C8 witness: the amended theorem applied to the `probability: "3"`
note. -/
theorem parse_numeric_fields_spec_witness :
    (parseRisk c8riskFile).probability = 1 :=
  parse_numeric_fields_spec.2.1 c8riskFile
    [(str "probability", .s (str "3"))] (str "3") rfl rfl

/-- C9: the WBS folder filter admits any path sharing the folder path as
a mere string prefix — the sibling note `project2/task.md` passes the
filter for folder `project` and ends up among the parsed items, while
the Decision parser's filter correctly rejects it. -/
theorem wbsFolderFilter_prefix_bug :
    wbsFolderFilter (str "project") (str "project2/task.md") = true ∧
    decisionFolderFilter (str "project") (str "project2/task.md") = false ∧
    (str "project2/task.md") ∈
      alistKeys (parseFolder DEFAULT_PROPERTY_MAPPING [c9file] (str "project")).items := by
  decide

/-- C10: `updateProjectWithFile` keeps previously assigned WBS numbers
verbatim, so after adding `p/a.md` to a project whose only note was
`p/r.md`, the incremental update leaves `p/r.md` at number `1` (and
numbers the new note `1` as well), while a fresh `parseFolder` over the
same two notes renumbers `p/r.md` to `2`. -/
theorem updateProjectWithFile_stale_number :
    (alistGet (updateProjectWithFile DEFAULT_PROPERTY_MAPPING
        (parseFolder DEFAULT_PROPERTY_MAPPING [c10r] (str "p")) c10a (str "p")).items
      (str "p/r.md")).map (·.wbsNumber) = some (str "1") ∧
    (alistGet (updateProjectWithFile DEFAULT_PROPERTY_MAPPING
        (parseFolder DEFAULT_PROPERTY_MAPPING [c10r] (str "p")) c10a (str "p")).items
      (str "p/a.md")).map (·.wbsNumber) = some (str "1") ∧
    (alistGet (parseFolder DEFAULT_PROPERTY_MAPPING [c10r, c10a] (str "p")).items
      (str "p/r.md")).map (·.wbsNumber) = some (str "2") := by
  decide

end NexusPM

namespace NexusPM

theorem alistGet_nil (id : Str) : alistGet [] id = none := rfl

theorem alistGet_cons (e : Str × WBSItem) (rest : ItemMap) (id : Str) :
    alistGet (e :: rest) id = if e.1 = id then some e.2 else alistGet rest id := by
  unfold alistGet
  by_cases h : e.1 = id <;> simp [List.find?, h]

theorem alistHas_cons (e : Str × WBSItem) (rest : ItemMap) (id : Str) :
    alistHas (e :: rest) id = (decide (e.1 = id) || alistHas rest id) := by
  unfold alistHas
  by_cases h : e.1 = id <;> simp [List.find?, h]

theorem alistGet_modify_self (m : ItemMap) (id : Str) (f : WBSItem → WBSItem) :
    alistGet (alistModify m id f) id = (alistGet m id).map f := by
  induction m with
  | nil => rfl
  | cons e rest ih =>
    by_cases h : e.1 = id
    · simp [alistModify, alistGet_cons, h]
    · simp [alistModify, alistGet_cons, h, ih]

theorem alistGet_modify_ne (m : ItemMap) (id id' : Str) (f : WBSItem → WBSItem)
    (h : id' ≠ id) :
    alistGet (alistModify m id f) id' = alistGet m id' := by
  induction m with
  | nil => rfl
  | cons e rest ih =>
    by_cases he : e.1 = id
    · have h2 : ¬ (id = id') := fun hh => h hh.symm
      simp [alistModify, alistGet_cons, he, h2]
    · simp [alistModify, alistGet_cons, he, ih]

theorem alistKeys_modify (m : ItemMap) (id : Str) (f : WBSItem → WBSItem) :
    alistKeys (alistModify m id f) = alistKeys m := by
  induction m with
  | nil => rfl
  | cons e rest ih =>
    by_cases h : e.1 = id
    · simp [alistModify, alistKeys, h]
    · simp only [alistModify, if_neg h]
      simp [alistKeys] at ih ⊢
      exact ih

theorem alistKeys_cons (e : Str × WBSItem) (rest : ItemMap) :
    alistKeys (e :: rest) = e.1 :: alistKeys rest := rfl

theorem alistHas_iff_mem (m : ItemMap) (id : Str) :
    alistHas m id = true ↔ id ∈ alistKeys m := by
  induction m with
  | nil => simp [alistHas, alistKeys]
  | cons e rest ih =>
    rw [alistHas_cons, alistKeys_cons, List.mem_cons]
    by_cases h : e.1 = id
    · constructor
      · intro _
        exact Or.inl h.symm
      · intro _
        rw [Bool.or_eq_true]
        exact Or.inl (decide_eq_true h)
    · constructor
      · intro hb
        rw [Bool.or_eq_true] at hb
        rcases hb with hb | hb
        · exact absurd (of_decide_eq_true hb) h
        · exact Or.inr (ih.mp hb)
      · rintro (hh | hh)
        · exact absurd hh.symm h
        · rw [Bool.or_eq_true]
          exact Or.inr (ih.mpr hh)

theorem alistGet_isSome_iff (m : ItemMap) (id : Str) :
    (alistGet m id).isSome = true ↔ id ∈ alistKeys m := by
  rw [← alistHas_iff_mem]
  unfold alistGet alistHas
  cases m.find? (fun e => decide (e.1 = id)) <;> simp

end NexusPM

namespace NexusPM

theorem alistHas_congr (m1 m2 : ItemMap) (h : alistKeys m1 = alistKeys m2) (id : Str) :
    alistHas m1 id = alistHas m2 id := by
  have hiff : (alistHas m1 id = true) ↔ (alistHas m2 id = true) := by
    rw [alistHas_iff_mem, alistHas_iff_mem, h]
  cases ha : alistHas m1 id <;> cases hb : alistHas m2 id <;> simp_all

theorem resolveParentPath_congr (t folder : Str) (m1 m2 : ItemMap)
    (h : alistKeys m1 = alistKeys m2) :
    resolveParentPath t folder m1 = resolveParentPath t folder m2 := by
  unfold resolveParentPath
  have hh : ∀ p, alistHas m1 p = alistHas m2 p := alistHas_congr m1 m2 h
  simp only [hh, h]

theorem find?_three (m : ItemMap) (p1 p2 p3 : Str) :
    List.find? (fun p => alistHas m p) [p1, p2, p3] =
      (if alistHas m p1 then some p1
       else if alistHas m p2 then some p2
       else if alistHas m p3 then some p3
       else none) := by
  by_cases a1 : alistHas m p1 <;> by_cases a2 : alistHas m p2 <;>
    by_cases a3 : alistHas m p3 <;> simp [List.find?, a1, a2, a3]

theorem resolveParentPath_eq_claim (t folder : Str) (m : ItemMap) :
    resolveParentPath t folder m = claimResolveParent t folder m := by
  unfold resolveParentPath claimResolveParent
  by_cases h1 : alistHas m t
  · simp [h1]
  · simp only [h1, Bool.false_eq_true, if_false]
    rw [find?_three]
    by_cases a1 : alistHas m (folder ++ (str "/" ++ (t ++ str ".md")))
    · simp [a1]
    · by_cases a2 : alistHas m (folder ++ (str "/" ++ t))
      · simp [a1, a2]
      · by_cases a3 : alistHas m (t ++ str ".md")
        · simp [a1, a2, a3]
        · cases hf : (alistKeys m).find? (fun ip => removeFirstMd (basenameOf ip) = t) <;>
            simp [a1, a2, a3, hf]

theorem claimResolveParent_mem (t folder : Str) (m : ItemMap) (rp : Str)
    (h : claimResolveParent t folder m = some rp) : rp ∈ alistKeys m := by
  unfold claimResolveParent at h
  split_ifs at h with h1 h2 h3 h4
  · cases h
    exact (alistHas_iff_mem m _).mp h1
  · cases h
    exact (alistHas_iff_mem m _).mp h2
  · cases h
    exact (alistHas_iff_mem m _).mp h3
  · cases h
    exact (alistHas_iff_mem m _).mp h4
  · exact List.mem_of_find?_eq_some h

theorem resolveStep_keys (folder : Str) (m : ItemMap) (id : Str) :
    alistKeys (resolveStep folder m id) = alistKeys m := by
  unfold resolveStep
  (repeat' split) <;> simp [alistKeys_modify]

theorem foldl_resolveStep_keys (folder : Str) (l : List Str) (m : ItemMap) :
    alistKeys (l.foldl (resolveStep folder) m) = alistKeys m := by
  induction l generalizing m with
  | nil => rfl
  | cons r rest ih => rw [List.foldl_cons, ih, resolveStep_keys]

theorem map_proj_modify {α : Type} (g : WBSItem → α) (m : ItemMap) (id id' : Str)
    (f : WBSItem → WBSItem) :
    (alistGet (alistModify m id f) id').map g =
      if id' = id then (alistGet m id').map (fun it => g (f it))
      else (alistGet m id').map g := by
  by_cases h : id' = id
  · subst h
    rw [alistGet_modify_self, if_pos rfl, Option.map_map]
    rfl
  · rw [alistGet_modify_ne m id id' f h, if_neg h]

end NexusPM

namespace NexusPM

theorem alistGet_none_iff (m : ItemMap) (id : Str) :
    alistGet m id = none ↔ id ∉ alistKeys m := by
  rw [← alistGet_isSome_iff]
  cases alistGet m id <;> simp

theorem filter_append_single (p : Str → Bool) (P : List Str) (r : Str) :
    (P ++ [r]).filter p = P.filter p ++ (if p r then [r] else []) := by
  rw [List.filter_append]
  congr 1
  by_cases h : p r <;> simp [h, List.filter]

end NexusPM

namespace NexusPM

theorem if_mem_append_congr (id r : Str) (P : List Str) (hidr : id ≠ r)
    (a b : Option Str) :
    (if id ∈ P then a else b) = (if id ∈ P ++ [r] then a else b) := by
  by_cases h : id ∈ P
  · rw [if_pos h, if_pos (List.mem_append.mpr (Or.inl h))]
  · rw [if_neg h, if_neg (by simp [List.mem_append, h, hidr])]

theorem ite_self' {α : Type} {c : Prop} [Decidable c] {x y z : α} (h : x = y) :
    (if c then x else y) = z ↔ y = z := by
  by_cases hc : c <;> simp [hc, h]

theorem resolveStep_inv (folder : Str) (m0 m : ItemMap) (P : List Str) (r : Str)
    (hr0 : r ∈ alistKeys m0) (hrP : r ∉ P)
    (hkeys : alistKeys m = alistKeys m0)
    (hpar : ∀ id, (alistGet m id).map (·.parentId) =
      (alistGet m0 id).map (fun it0 =>
        if id ∈ P then newParentId m0 folder it0 else it0.parentId))
    (hch : ∀ id, (alistGet m id).map (·.childIds) =
      (alistGet m0 id).map (fun _ => P.filter (fun c => cLink m0 folder c = some id))) :
    alistKeys (resolveStep folder m r) = alistKeys m0 ∧
    (∀ id, (alistGet (resolveStep folder m r) id).map (·.parentId) =
      (alistGet m0 id).map (fun it0 =>
        if id ∈ P ++ [r] then newParentId m0 folder it0 else it0.parentId)) ∧
    (∀ id, (alistGet (resolveStep folder m r) id).map (·.childIds) =
      (alistGet m0 id).map (fun _ => (P ++ [r]).filter (fun c => cLink m0 folder c = some id))) := by
  -- the original entry at `r`
  obtain ⟨it0r, h0r⟩ : ∃ it0r, alistGet m0 r = some it0r := by
    cases hg : alistGet m0 r with
    | none => exact absurd ((alistGet_none_iff m0 r).mp hg) (by simpa using hr0)
    | some it0r => exact ⟨it0r, rfl⟩
  -- the current entry at `r`
  obtain ⟨item, hm, hip, hic⟩ : ∃ item, alistGet m r = some item ∧
      item.parentId = it0r.parentId ∧
      item.childIds = P.filter (fun c => cLink m0 folder c = some r) := by
    have h1 := hpar r
    have h2 := hch r
    rw [h0r] at h1 h2
    cases hg : alistGet m r with
    | none => rw [hg] at h1; exact absurd h1 (by simp)
    | some item =>
      rw [hg] at h1 h2
      simp only [Option.map] at h1 h2
      rw [Option.some.injEq] at h1 h2
      rw [if_neg hrP] at h1
      exact ⟨item, rfl, h1, h2⟩
  have hcr : cLink m0 folder r = resolvedLink m0 folder it0r := by
    unfold cLink
    rw [h0r]
  -- case on the declared parent target
  unfold resolveStep
  simp only [hm]
  rw [hip]
  cases hpid : it0r.parentId with
  | none =>
    -- no declared parent: the step leaves the map unchanged
    have hnp : newParentId m0 folder it0r = it0r.parentId := by
      unfold newParentId
      rw [hpid]
    have hcl : cLink m0 folder r = none := by
      rw [hcr]
      unfold resolvedLink
      rw [hpid]
    refine ⟨hkeys, ?_, ?_⟩
    · intro id
      rw [hpar id]
      apply Option.map_congr
      intro it0 hit0
      by_cases hidr : id = r
      · subst hidr
        have : it0 = it0r := by
          rw [h0r] at hit0
          simpa using hit0.symm
        cases this
        rw [if_neg hrP, if_pos (by simp), hnp]
      · simp [hidr, hrP, List.mem_append]
    · intro id
      rw [hch id]
      apply Option.map_congr
      intro it0 _
      rw [filter_append_single, hcl]
      simp
  | some t =>
    simp only []
    by_cases ht : t = []
    · -- empty target: falsy guard, unchanged
      rw [if_pos ht]
      have hnp : newParentId m0 folder it0r = some t := by
        unfold newParentId
        rw [hpid]
        simp [ht]
      have hcl : cLink m0 folder r = none := by
        rw [hcr]
        unfold resolvedLink
        rw [hpid]
        simp [ht]
      refine ⟨hkeys, ?_, ?_⟩
      · intro id
        rw [hpar id]
        apply Option.map_congr
        intro it0 hit0
        by_cases hidr : id = r
        · subst hidr
          have h6 : it0 = it0r := by
            rw [h0r] at hit0
            simpa using hit0.symm
          cases h6
          rw [if_neg hrP, if_pos (by simp), hpid, hnp]
        · simp [hidr, hrP, List.mem_append]
      · intro id
        rw [hch id]
        apply Option.map_congr
        intro it0 _
        rw [filter_append_single, hcl]
        simp
    · rw [if_neg ht]
      have hres : resolveParentPath t folder m = claimResolveParent t folder m0 := by
        rw [resolveParentPath_congr t folder m m0 hkeys, resolveParentPath_eq_claim]
      have hnp : newParentId m0 folder it0r = claimResolveParent t folder m0 := by
        unfold newParentId
        rw [hpid]
        simp [ht]
      have hcl : cLink m0 folder r = claimResolveParent t folder m0 := by
        rw [hcr]
        unfold resolvedLink
        rw [hpid]
        simp [ht]
      rw [hres]
      cases hclaim : claimResolveParent t folder m0 with
      | none =>
        -- dangling reference: the parentId is nulled, no child edge
        refine ⟨by rw [alistKeys_modify, hkeys], ?_, ?_⟩
        · intro id
          rw [map_proj_modify]
          by_cases hidr : id = r
          · rw [if_pos hidr, hidr, hm, h0r]
            simp only [Option.map]
            rw [if_pos (by simp), hnp, hclaim]
          · rw [if_neg hidr, hpar id]
            apply Option.map_congr
            intro it0 _
            exact if_mem_append_congr id r P hidr _ _
        · intro id
          rw [map_proj_modify]
          have hsame : (alistGet m id).map
              (fun it => (({ it with parentId := none } : WBSItem)).childIds) =
              (alistGet m id).map (·.childIds) :=
            Option.map_congr (fun p _ => rfl)
          rw [ite_self' hsame, hch id]
          apply Option.map_congr
          intro it0 _
          rw [filter_append_single]
          have : cLink m0 folder r = none := by rw [hcl, hclaim]
          simp [this]
      | some rp =>
        have hhas : alistHas m rp = true := by
          rw [alistHas_iff_mem, hkeys]
          exact claimResolveParent_mem t folder m0 rp hclaim
        simp only [if_pos hhas]
        refine ⟨by rw [alistKeys_modify, alistKeys_modify, hkeys], ?_, ?_⟩
        · intro id
          rw [map_proj_modify]
          have hfp : (alistGet (alistModify m r fun it => { it with parentId := some rp }) id).map
              (fun p => (if r ∈ p.childIds then p
                else { p with childIds := p.childIds ++ [r] }).parentId) =
              (alistGet (alistModify m r fun it => { it with parentId := some rp }) id).map
                (·.parentId) := by
            apply Option.map_congr
            intro p _
            split <;> rfl
          rw [ite_self' hfp, map_proj_modify]
          by_cases hidr : id = r
          · rw [if_pos hidr, hidr, hm, h0r]
            simp only [Option.map]
            rw [if_pos (by simp), hnp, hclaim]
          · rw [if_neg hidr, hpar id]
            apply Option.map_congr
            intro it0 _
            exact if_mem_append_congr id r P hidr _ _
        · intro id
          rw [map_proj_modify]
          -- the current entry at `rp`
          obtain ⟨it0rp, h0rp⟩ : ∃ it0rp, alistGet m0 rp = some it0rp := by
            cases hg : alistGet m0 rp with
            | none =>
              exact absurd ((alistGet_none_iff m0 rp).mp hg)
                (by simpa using claimResolveParent_mem t folder m0 rp hclaim)
            | some x => exact ⟨x, rfl⟩
          obtain ⟨prp, hgrp, hcrp⟩ : ∃ prp, alistGet m rp = some prp ∧
              prp.childIds = P.filter (fun c => cLink m0 folder c = some rp) := by
            have h2 := hch rp
            rw [h0rp] at h2
            cases hg : alistGet m rp with
            | none => rw [hg] at h2; exact absurd h2 (by simp)
            | some prp =>
              rw [hg] at h2
              simp only [Option.map] at h2
              rw [Option.some.injEq] at h2
              exact ⟨prp, rfl, h2⟩
          have hclr : cLink m0 folder r = some rp := by rw [hcl, hclaim]
          by_cases hidrp : id = rp
          · rw [if_pos hidrp]
            subst hidrp
            by_cases hrrp : id = r
            · -- self-parent: both writes hit the same entry
              subst hrrp
              rw [alistGet_modify_self, hm]
              simp only [Option.map, h0r]
              rw [Option.some.injEq]
              have hnotin : id ∉ item.childIds := by
                rw [hic]
                intro hmem
                exact hrP (List.mem_filter.mp hmem).1
              rw [if_neg hnotin, hic, filter_append_single, hclr]
              simp
            · rw [alistGet_modify_ne m r id _ hrrp, hgrp, h0rp]
              simp only [Option.map]
              rw [Option.some.injEq]
              have hnotin : r ∉ prp.childIds := by
                rw [hcrp]
                intro hmem
                exact hrP (List.mem_filter.mp hmem).1
              rw [if_neg hnotin, hcrp, filter_append_single, hclr]
              simp
          · rw [if_neg hidrp, map_proj_modify]
            have hsame2 : (alistGet m id).map
                (fun it => (({ it with parentId := some rp } : WBSItem)).childIds) =
                (alistGet m id).map (·.childIds) :=
              Option.map_congr (fun p _ => rfl)
            rw [ite_self' hsame2, hch id]
            apply Option.map_congr
            intro it0 _
            rw [filter_append_single, hclr]
            have : ¬ ((some rp : Option Str) = some id) := by
              intro hh
              exact hidrp (by injection hh with hh2; exact hh2.symm)
            simp [this]

end NexusPM

namespace NexusPM

theorem resolveLoop_inv (folder : Str) (m0 : ItemMap)
    (hnd : (alistKeys m0).Nodup) :
    ∀ (R P : List Str) (m : ItemMap),
      alistKeys m0 = P ++ R →
      alistKeys m = alistKeys m0 →
      (∀ id, (alistGet m id).map (·.parentId) =
        (alistGet m0 id).map (fun it0 =>
          if id ∈ P then newParentId m0 folder it0 else it0.parentId)) →
      (∀ id, (alistGet m id).map (·.childIds) =
        (alistGet m0 id).map (fun _ => P.filter (fun c => cLink m0 folder c = some id))) →
      alistKeys (R.foldl (resolveStep folder) m) = alistKeys m0 ∧
      (∀ id, (alistGet (R.foldl (resolveStep folder) m) id).map (·.parentId) =
        (alistGet m0 id).map (fun it0 =>
          if id ∈ P ++ R then newParentId m0 folder it0 else it0.parentId)) ∧
      (∀ id, (alistGet (R.foldl (resolveStep folder) m) id).map (·.childIds) =
        (alistGet m0 id).map (fun _ =>
          (P ++ R).filter (fun c => cLink m0 folder c = some id))) := by
  intro R
  induction R with
  | nil =>
    intro P m hPR hkeys hpar hch
    simp only [List.foldl_nil, List.append_nil]
    exact ⟨hkeys, hpar, hch⟩
  | cons r R2 ih =>
    intro P m hPR hkeys hpar hch
    have hr0 : r ∈ alistKeys m0 := by
      rw [hPR]
      exact List.mem_append.mpr (Or.inr (List.mem_cons_self r R2))
    have hrP : r ∉ P := by
      have hnd2 : (P ++ r :: R2).Nodup := hPR ▸ hnd
      have hd := (List.nodup_append.mp hnd2).2.2
      intro hmem
      exact hd hmem (List.mem_cons_self r R2)
    obtain ⟨hk2, hp2, hc2⟩ := resolveStep_inv folder m0 m P r hr0 hrP hkeys hpar hch
    have hPR2 : alistKeys m0 = (P ++ [r]) ++ R2 := by
      rw [List.append_assoc]
      simpa using hPR
    obtain ⟨hk3, hp3, hc3⟩ := ih (P ++ [r]) (resolveStep folder m r) hPR2 hk2 hp2 hc2
    have hfix : (P ++ [r]) ++ R2 = P ++ r :: R2 := by simp
    rw [hfix] at hp3 hc3
    rw [List.foldl_cons]
    exact ⟨hk3, hp3, hc3⟩

theorem alist_filter_keys (m : ItemMap) (hnd : (alistKeys m).Nodup)
    (p : WBSItem → Bool) :
    (m.filter (fun e => p e.2)).map (·.1) =
      (alistKeys m).filter (fun id =>
        match alistGet m id with
        | some it => p it
        | none => false) := by
  induction m with
  | nil => rfl
  | cons e rest ih =>
    have hnotin : e.1 ∉ alistKeys rest := by
      rw [alistKeys_cons] at hnd
      exact (List.nodup_cons.mp hnd).1
    have hndr : (alistKeys rest).Nodup := by
      rw [alistKeys_cons] at hnd
      exact (List.nodup_cons.mp hnd).2
    have hcongr : ∀ id ∈ alistKeys rest,
        (match alistGet (e :: rest) id with
          | some it => p it
          | none => false) =
        (match alistGet rest id with
          | some it => p it
          | none => false) := by
      intro id hid
      have : e.1 ≠ id := fun hh => hnotin (hh ▸ hid)
      rw [alistGet_cons, if_neg this]
    rw [alistKeys_cons]
    by_cases hp : p e.2
    · rw [List.filter_cons_of_pos (by simpa using hp), List.map_cons,
        List.filter_cons_of_pos (by simp [alistGet_cons, hp]), ih hndr,
        List.filter_congr hcongr]
    · rw [List.filter_cons_of_neg (by simpa using hp),
        List.filter_cons_of_neg (by simp [alistGet_cons, hp]), ih hndr,
        List.filter_congr hcongr]

end NexusPM

namespace NexusPM

theorem alistGet_mem (m : ItemMap) (id : Str) (it : WBSItem)
    (h : alistGet m id = some it) : (id, it) ∈ m := by
  induction m with
  | nil => cases h
  | cons e rest ih =>
    obtain ⟨a, b⟩ := e
    rw [alistGet_cons] at h
    by_cases he : a = id
    · rw [if_pos (by simpa using he)] at h
      rw [Option.some.injEq] at h
      exact List.mem_cons.mpr (Or.inl (by rw [← he, ← h]))
    · rw [if_neg (by simpa using he)] at h
      exact List.mem_cons.mpr (Or.inr (ih h))

/-- C5 (amended): resolution tries the exact id, `folder/target.md`,
`folder/target`, `target.md`, then the first node whose base filename
with its FIRST `".md"` occurrence removed (not extension-stripping)
equals the target; the first match becomes the node's `parentId` and the
node joins that parent's `childIds` exactly once; an unresolvable target
silently becomes a null `parentId`; a node whose extracted target is the
empty string skips resolution and keeps the empty `parentId`; and
`rootItemIds` is exactly the lexicographically sorted set of nodes whose
final `parentId` is falsy — null OR the empty string. -/
theorem resolveRelationships_spec (project : WBSProject) (folder : Str)
    (hnd : (alistKeys project.items).Nodup)
    (hflat : ∀ e ∈ project.items, e.2.childIds = [])
    (hroots0 : project.rootItemIds = []) :
    (∀ t, resolveParentPath t folder project.items =
      claimResolveParent t folder project.items) ∧
    (∀ id it, alistGet project.items id = some it →
      (alistGet (resolveRelationships project folder).items id).map (·.parentId) =
        some (newParentId project.items folder it)) ∧
    (∀ p pit, alistGet (resolveRelationships project folder).items p = some pit →
      pit.childIds.Nodup ∧
      (∀ c, c ∈ pit.childIds ↔
        ∃ cit, alistGet project.items c = some cit ∧
          resolvedLink project.items folder cit = some p)) ∧
    (resolveRelationships project folder).rootItemIds =
      sortStrs ((alistKeys project.items).filter (fun id =>
        match alistGet project.items id with
        | some it => jsFalsy (newParentId project.items folder it)
        | none => false)) := by
  have base_par : ∀ id, (alistGet project.items id).map (·.parentId) =
      (alistGet project.items id).map (fun it0 =>
        if id ∈ ([] : List Str) then newParentId project.items folder it0
        else it0.parentId) := by
    intro id
    apply Option.map_congr
    intro it0 _
    simp
  have base_ch : ∀ id, (alistGet project.items id).map (·.childIds) =
      (alistGet project.items id).map (fun _ =>
        ([] : List Str).filter (fun c => cLink project.items folder c = some id)) := by
    intro id
    apply Option.map_congr
    intro it0 hit0
    have hmem := alistGet_mem project.items id it0 (Option.mem_def.mp hit0)
    simpa using hflat (id, it0) hmem
  obtain ⟨invK, invP, invC⟩ := resolveLoop_inv folder project.items hnd
    (alistKeys project.items) [] project.items (by simp) rfl base_par base_ch
  simp only [List.nil_append] at invP invC
  have hitems : (resolveRelationships project folder).items =
      (alistKeys project.items).foldl (resolveStep folder) project.items := rfl
  refine ⟨fun t => resolveParentPath_eq_claim t folder project.items, ?_, ?_, ?_⟩
  · intro id it hget
    have hidks : id ∈ alistKeys project.items :=
      (alistGet_isSome_iff project.items id).mp (by rw [hget]; rfl)
    rw [hitems, invP id, hget]
    simp [hidks]
  · intro p pit hget
    rw [hitems] at hget
    have hpks : p ∈ alistKeys project.items := by
      have h1 : p ∈ alistKeys ((alistKeys project.items).foldl (resolveStep folder) project.items) :=
        (alistGet_isSome_iff _ p).mp (by rw [hget]; rfl)
      rwa [invK] at h1
    obtain ⟨it0p, hg0⟩ : ∃ it0p, alistGet project.items p = some it0p := by
      cases hg : alistGet project.items p with
      | none => exact absurd ((alistGet_none_iff project.items p).mp hg) (by simpa using hpks)
      | some x => exact ⟨x, rfl⟩
    have h3 := invC p
    rw [hget, hg0] at h3
    simp only [Option.map] at h3
    rw [Option.some.injEq] at h3
    constructor
    · rw [h3]
      exact hnd.filter _
    · intro c
      rw [h3, List.mem_filter]
      constructor
      · rintro ⟨hcks, hcpred⟩
        have hclink : cLink project.items folder c = some p := of_decide_eq_true hcpred
        unfold cLink at hclink
        cases hgc : alistGet project.items c with
        | none => rw [hgc] at hclink; cases hclink
        | some cit =>
          rw [hgc] at hclink
          exact ⟨cit, rfl, hclink⟩
      · rintro ⟨cit, hgc, hres⟩
        refine ⟨(alistGet_isSome_iff project.items c).mp (by rw [hgc]; rfl), ?_⟩
        apply decide_eq_true
        unfold cLink
        rw [hgc]
        exact hres
  · have hndF : (alistKeys ((alistKeys project.items).foldl (resolveStep folder) project.items)).Nodup := by
      rw [invK]
      exact hnd
    have hfk := alist_filter_keys
      ((alistKeys project.items).foldl (resolveStep folder) project.items) hndF
      (fun it => match it.parentId with
        | none => true
        | some t => decide (t = []))
    have hout : (resolveRelationships project folder).rootItemIds =
        sortStrs (project.rootItemIds ++
          ((((alistKeys project.items).foldl (resolveStep folder) project.items).filter (fun e =>
            match e.2.parentId with
            | none => true
            | some t => decide (t = []))).map (·.1))) := rfl
    rw [hout, hroots0, List.nil_append, hfk, invK]
    apply congrArg
    apply List.filter_congr
    intro id hid
    obtain ⟨it0, hg0⟩ : ∃ it0, alistGet project.items id = some it0 := by
      cases hg : alistGet project.items id with
      | none => exact absurd ((alistGet_none_iff project.items id).mp hg) (by simpa using hid)
      | some x => exact ⟨x, rfl⟩
    obtain ⟨itF, hgF⟩ : ∃ itF,
        alistGet ((alistKeys project.items).foldl (resolveStep folder) project.items) id =
          some itF := by
      cases hg : alistGet ((alistKeys project.items).foldl (resolveStep folder) project.items) id with
      | none =>
        have hninF := (alistGet_none_iff _ id).mp hg
        rw [invK] at hninF
        exact absurd hid hninF
      | some x => exact ⟨x, rfl⟩
    have h2 := invP id
    rw [hg0, hgF] at h2
    simp only [Option.map] at h2
    rw [Option.some.injEq, if_pos hid] at h2
    simp only [hgF, hg0]
    rw [h2]
    unfold jsFalsy
    cases newParentId project.items folder it0 <;> simp

end NexusPM

namespace NexusPM

/-- C5 counterexample: the target `a.mdx` equals the extension-stripped
base filename of the node `p/sub/a.mdx.md` and no earlier resolution
step matches, so the claim requires the reference to resolve; the code,
which removes the FIRST `".md"` occurrence instead, leaves it
unresolved: the child gets a null parent and becomes a root.  Moreover
`p/e.md`, whose extracted parent target is the empty string, appears in
`rootItemIds` while its `parentId` is the empty string, not null. -/
theorem resolveRelationships_cex :
    specStripExtension (basenameOf (str "p/sub/a.mdx.md")) = str "a.mdx" ∧
    removeFirstMd (basenameOf (str "p/sub/a.mdx.md")) ≠ str "a.mdx" ∧
    alistHas cexProject.items (str "a.mdx") = false ∧
    alistHas cexProject.items (str "p/a.mdx.md") = false ∧
    alistHas cexProject.items (str "p/a.mdx") = false ∧
    alistHas cexProject.items (str "a.mdx.md") = false ∧
    (alistGet (resolveRelationships cexProject (str "p")).items (str "p/c.md")).map
      (·.parentId) = some none ∧
    (str "p/c.md") ∈ (resolveRelationships cexProject (str "p")).rootItemIds ∧
    (alistGet (resolveRelationships cexProject (str "p")).items (str "p/e.md")).map
      (·.parentId) = some (some []) ∧
    (str "p/e.md") ∈ (resolveRelationships cexProject (str "p")).rootItemIds := by
  decide

/-- C5 witness: the amended root characterization evaluated on the
concrete counterexample project. -/
theorem resolveRelationships_spec_witness :
    (resolveRelationships cexProject (str "p")).rootItemIds =
      sortStrs ((alistKeys cexProject.items).filter (fun id =>
        match alistGet cexProject.items id with
        | some it => jsFalsy (newParentId cexProject.items (str "p") it)
        | none => false)) :=
  (resolveRelationships_spec cexProject (str "p") (by decide) (by decide) rfl).2.2.2

theorem natToStrAux_ne_nil (fuel n : Nat) (h : n < fuel) :
    natToStrAux fuel n ≠ [] := by
  cases fuel with
  | zero => omega
  | succ f =>
    unfold natToStrAux
    by_cases h10 : n < 10
    · simp [h10]
    · simp [h10]

theorem natToStr_ne_nil (n : Nat) : natToStr n ≠ [] :=
  natToStrAux_ne_nil (n + 1) n (by omega)

theorem specNumber_nil (fuel : Nat) (m : ItemMap) (pre : Str) (idx : Nat) :
    specNumber fuel m pre [] idx = [] := by
  cases fuel <;> rfl

theorem specNumber_isSome :
    ∀ (fuel : Nat) (m : ItemMap) (pre : Str) (ids : List Str) (idx : Nat) (x : Str),
      x ∈ (specNumber fuel m pre ids idx).map Prod.fst →
      (alistGet m x).isSome = true := by
  intro fuel
  induction fuel with
  | zero => intro m pre ids idx x hx; cases hx
  | succ f ih =>
    intro m pre ids idx x hx
    cases ids with
    | nil => cases hx
    | cons id rest =>
      cases hg : alistGet m id with
      | none =>
        simp only [specNumber, hg] at hx
        exact ih m pre rest (idx + 1) x hx
      | some item =>
        simp only [specNumber, hg, List.map_cons, List.map_append] at hx
        rcases List.mem_cons.mp hx with h | h
        · rw [h, hg]; rfl
        · rcases List.mem_append.mp h with h2 | h2
          · exact ih m _ (sortStrs item.childIds) 0 x h2
          · exact ih m pre rest (idx + 1) x h2

theorem specNumber_congr (m m' : ItemMap) (S : List Str)
    (hagree : ∀ x, x ∉ S → alistGet m' x = alistGet m x)
    (hsome : ∀ s ∈ S, (alistGet m s).isSome = true) :
    ∀ (fuel : Nat) (pre : Str) (ids : List Str) (idx : Nat),
      (∀ s ∈ S, s ∉ (specNumber fuel m pre ids idx).map Prod.fst) →
      specNumber fuel m' pre ids idx = specNumber fuel m pre ids idx := by
  intro fuel
  induction fuel with
  | zero => intro pre ids idx _; rfl
  | succ f ih =>
    intro pre ids idx hS
    cases ids with
    | nil => rfl
    | cons id rest =>
      by_cases hid : id ∈ S
      · exfalso
        obtain ⟨item, hitem⟩ := Option.isSome_iff_exists.mp (hsome id hid)
        apply hS id hid
        simp [specNumber, hitem]
      · have hgid : alistGet m' id = alistGet m id := hagree id hid
        cases hg : alistGet m id with
        | none =>
          have hg' : alistGet m' id = none := by rw [hgid, hg]
          simp only [specNumber, hg, hg']
          apply ih pre rest (idx + 1)
          intro s hs
          have := hS s hs
          simpa [specNumber, hg] using this
        | some item =>
          have hg' : alistGet m' id = some item := by rw [hgid, hg]
          simp only [specNumber, hg, hg']
          have hparts : ∀ s ∈ S,
              s ∉ (specNumber f m (if item.wbsNumber = [] then
                  (if pre = [] then natToStr (idx + 1)
                    else pre ++ '.' :: natToStr (idx + 1))
                else item.wbsNumber) (sortStrs item.childIds) 0).map Prod.fst ∧
              s ∉ (specNumber f m pre rest (idx + 1)).map Prod.fst := by
            intro s hs
            have := hS s hs
            simp only [specNumber, hg, List.map_cons, List.map_append,
              List.mem_cons, List.mem_append] at this
            push_neg at this
            exact ⟨this.2.1, this.2.2⟩
          rw [ih _ (sortStrs item.childIds) 0 (fun s hs => (hparts s hs).1),
            ih pre rest (idx + 1) (fun s hs => (hparts s hs).2)]

theorem assignNumberAux_realizes :
    ∀ (fuel : Nat) (m : ItemMap) (pre : Str) (ids : List Str) (idx : Nat),
      ((specNumber fuel m pre ids idx).map Prod.fst).Nodup →
      (∀ tgt, tgt ∉ (specNumber fuel m pre ids idx).map Prod.fst →
        alistGet (assignNumberAux fuel m pre ids idx) tgt = alistGet m tgt) ∧
      (∀ p ∈ specNumber fuel m pre ids idx,
        (alistGet (assignNumberAux fuel m pre ids idx) p.1).map (·.wbsNumber) = some p.2) := by
  intro fuel
  induction fuel with
  | zero =>
    intro m pre ids idx _
    constructor
    · intro tgt _
      rfl
    · intro p hp
      simp [specNumber] at hp
  | succ f ih =>
    intro m pre ids idx hnd
    cases ids with
    | nil =>
      constructor
      · intro tgt _
        rfl
      · intro p hp
        rw [specNumber_nil] at hp
        cases hp
    | cons id rest =>
      cases hg : alistGet m id with
      | none =>
        have hwalk : specNumber (f + 1) m pre (id :: rest) idx =
            specNumber f m pre rest (idx + 1) := by
          simp only [specNumber, hg]
        have haux : assignNumberAux (f + 1) m pre (id :: rest) idx =
            assignNumberAux f m pre rest (idx + 1) := by
          simp only [assignNumberAux, hg]
        rw [hwalk] at hnd ⊢
        rw [haux]
        exact ih m pre rest (idx + 1) hnd
      | some item =>
        by_cases hch : item.childIds = []
        · have hwalk : specNumber (f + 1) m pre (id :: rest) idx =
              (id, if item.wbsNumber = [] then
                  (if pre = [] then natToStr (idx + 1) else pre ++ '.' :: natToStr (idx + 1))
                else item.wbsNumber) :: specNumber f m pre rest (idx + 1) := by
            simp only [specNumber, hg, hch, sortStrs, specNumber_nil, List.nil_append]
          have haux : assignNumberAux (f + 1) m pre (id :: rest) idx =
              assignNumberAux f (alistModify m id (fun it =>
                { it with wbsNumber := if item.wbsNumber = [] then
                    (if pre = [] then natToStr (idx + 1) else pre ++ '.' :: natToStr (idx + 1))
                  else item.wbsNumber })) pre rest (idx + 1) := by
            simp only [assignNumberAux, hg, hch, eq_self_iff_true, if_true]
          rw [hwalk] at hnd ⊢
          rw [haux]
          rw [List.map_cons] at hnd
          have hidr := (List.nodup_cons.mp hnd).1
          have hndr := (List.nodup_cons.mp hnd).2
          have hcongr : specNumber f (alistModify m id (fun it =>
              { it with wbsNumber := if item.wbsNumber = [] then
                  (if pre = [] then natToStr (idx + 1) else pre ++ '.' :: natToStr (idx + 1))
                else item.wbsNumber })) pre rest (idx + 1) =
              specNumber f m pre rest (idx + 1) := by
            apply specNumber_congr m _ [id]
            · intro x hx
              exact alistGet_modify_ne m id x _ (by simpa using hx)
            · intro s hs
              rw [List.mem_singleton.mp hs, hg]
              rfl
            · intro s hs
              rw [List.mem_singleton.mp hs]
              exact hidr
          have IH := ih (alistModify m id (fun it =>
              { it with wbsNumber := if item.wbsNumber = [] then
                  (if pre = [] then natToStr (idx + 1) else pre ++ '.' :: natToStr (idx + 1))
                else item.wbsNumber })) pre rest (idx + 1)
            (by rw [hcongr]; exact hndr)
          constructor
          · intro tgt htgt
            simp only [List.map_cons, List.mem_cons] at htgt
            push_neg at htgt
            rw [IH.1 tgt (by rw [hcongr]; exact htgt.2)]
            exact alistGet_modify_ne m id tgt _ htgt.1
          · intro p hp
            rcases List.mem_cons.mp hp with hp | hp
            · subst hp
              show (alistGet (assignNumberAux f (alistModify m id (fun it =>
                  { it with wbsNumber := if item.wbsNumber = [] then
                      (if pre = [] then natToStr (idx + 1) else pre ++ '.' :: natToStr (idx + 1))
                    else item.wbsNumber })) pre rest (idx + 1)) id).map (·.wbsNumber) =
                some (if item.wbsNumber = [] then
                  (if pre = [] then natToStr (idx + 1) else pre ++ '.' :: natToStr (idx + 1))
                else item.wbsNumber)
              rw [IH.1 id (by rw [hcongr]; exact hidr)]
              rw [alistGet_modify_self, hg]
              rfl
            · exact IH.2 p (by rw [hcongr]; exact hp)
        · have hwalk : specNumber (f + 1) m pre (id :: rest) idx =
              (id, if item.wbsNumber = [] then
                  (if pre = [] then natToStr (idx + 1) else pre ++ '.' :: natToStr (idx + 1))
                else item.wbsNumber) ::
              (specNumber f m (if item.wbsNumber = [] then
                  (if pre = [] then natToStr (idx + 1) else pre ++ '.' :: natToStr (idx + 1))
                else item.wbsNumber) (sortStrs item.childIds) 0 ++
                specNumber f m pre rest (idx + 1)) := by
            simp only [specNumber, hg]
          have haux : assignNumberAux (f + 1) m pre (id :: rest) idx =
              assignNumberAux f
                (assignNumberAux f
                  (alistModify (alistModify m id (fun it =>
                    { it with wbsNumber := if item.wbsNumber = [] then
                        (if pre = [] then natToStr (idx + 1) else pre ++ '.' :: natToStr (idx + 1))
                      else item.wbsNumber })) id (fun it =>
                    { it with childIds := sortStrs item.childIds }))
                  (if item.wbsNumber = [] then
                    (if pre = [] then natToStr (idx + 1) else pre ++ '.' :: natToStr (idx + 1))
                  else item.wbsNumber) (sortStrs item.childIds) 0)
                pre rest (idx + 1) := by
            simp only [assignNumberAux, hg]
            rw [if_neg hch]
          rw [hwalk] at hnd ⊢
          rw [haux]
          rw [List.map_cons, List.map_append] at hnd
          have hid_notin := (List.nodup_cons.mp hnd).1
          obtain ⟨hnd_c, hnd_r, hdisj⟩ := List.nodup_append.mp (List.nodup_cons.mp hnd).2
          have hid_c : id ∉ (specNumber f m (if item.wbsNumber = [] then
              (if pre = [] then natToStr (idx + 1) else pre ++ '.' :: natToStr (idx + 1))
            else item.wbsNumber) (sortStrs item.childIds) 0).map Prod.fst :=
            fun h => hid_notin (List.mem_append_left _ h)
          have hid_r : id ∉ (specNumber f m pre rest (idx + 1)).map Prod.fst :=
            fun h => hid_notin (List.mem_append_right _ h)
          have hcongr1 : specNumber f
              (alistModify (alistModify m id (fun it =>
                { it with wbsNumber := if item.wbsNumber = [] then
                    (if pre = [] then natToStr (idx + 1) else pre ++ '.' :: natToStr (idx + 1))
                  else item.wbsNumber })) id (fun it =>
                { it with childIds := sortStrs item.childIds }))
              (if item.wbsNumber = [] then
                (if pre = [] then natToStr (idx + 1) else pre ++ '.' :: natToStr (idx + 1))
              else item.wbsNumber) (sortStrs item.childIds) 0 =
              specNumber f m (if item.wbsNumber = [] then
                (if pre = [] then natToStr (idx + 1) else pre ++ '.' :: natToStr (idx + 1))
              else item.wbsNumber) (sortStrs item.childIds) 0 := by
            apply specNumber_congr m _ [id]
            · intro x hx
              have hxid : x ≠ id := by simpa using hx
              rw [alistGet_modify_ne _ _ _ _ hxid, alistGet_modify_ne _ _ _ _ hxid]
            · intro s hs
              rw [List.mem_singleton.mp hs, hg]
              rfl
            · intro s hs
              rw [List.mem_singleton.mp hs]
              exact hid_c
          have IH1 := ih (alistModify (alistModify m id (fun it =>
              { it with wbsNumber := if item.wbsNumber = [] then
                  (if pre = [] then natToStr (idx + 1) else pre ++ '.' :: natToStr (idx + 1))
                else item.wbsNumber })) id (fun it =>
              { it with childIds := sortStrs item.childIds }))
            (if item.wbsNumber = [] then
              (if pre = [] then natToStr (idx + 1) else pre ++ '.' :: natToStr (idx + 1))
            else item.wbsNumber) (sortStrs item.childIds) 0
            (by rw [hcongr1]; exact hnd_c)
          have hcongr2 : specNumber f
              (assignNumberAux f
                (alistModify (alistModify m id (fun it =>
                  { it with wbsNumber := if item.wbsNumber = [] then
                      (if pre = [] then natToStr (idx + 1) else pre ++ '.' :: natToStr (idx + 1))
                    else item.wbsNumber })) id (fun it =>
                  { it with childIds := sortStrs item.childIds }))
                (if item.wbsNumber = [] then
                  (if pre = [] then natToStr (idx + 1) else pre ++ '.' :: natToStr (idx + 1))
                else item.wbsNumber) (sortStrs item.childIds) 0)
              pre rest (idx + 1) =
              specNumber f m pre rest (idx + 1) := by
            apply specNumber_congr m _ (id :: (specNumber f m (if item.wbsNumber = [] then
                (if pre = [] then natToStr (idx + 1) else pre ++ '.' :: natToStr (idx + 1))
              else item.wbsNumber) (sortStrs item.childIds) 0).map Prod.fst)
            · intro x hx
              have hxid : x ≠ id := fun h => hx (h ▸ List.mem_cons_self _ _)
              have hxc : x ∉ (specNumber f m (if item.wbsNumber = [] then
                  (if pre = [] then natToStr (idx + 1) else pre ++ '.' :: natToStr (idx + 1))
                else item.wbsNumber) (sortStrs item.childIds) 0).map Prod.fst :=
                fun h => hx (List.mem_cons_of_mem _ h)
              rw [IH1.1 x (by rw [hcongr1]; exact hxc)]
              rw [alistGet_modify_ne _ _ _ _ hxid, alistGet_modify_ne _ _ _ _ hxid]
            · intro s hs
              rcases List.mem_cons.mp hs with hs | hs
              · rw [hs, hg]
                rfl
              · exact specNumber_isSome f m _ (sortStrs item.childIds) 0 s hs
            · intro s hs
              rcases List.mem_cons.mp hs with hs | hs
              · rw [hs]
                exact hid_r
              · intro hmem
                exact hdisj hs hmem
          have IH2 := ih (assignNumberAux f
              (alistModify (alistModify m id (fun it =>
                { it with wbsNumber := if item.wbsNumber = [] then
                    (if pre = [] then natToStr (idx + 1) else pre ++ '.' :: natToStr (idx + 1))
                  else item.wbsNumber })) id (fun it =>
                { it with childIds := sortStrs item.childIds }))
              (if item.wbsNumber = [] then
                (if pre = [] then natToStr (idx + 1) else pre ++ '.' :: natToStr (idx + 1))
              else item.wbsNumber) (sortStrs item.childIds) 0)
            pre rest (idx + 1) (by rw [hcongr2]; exact hnd_r)
          constructor
          · intro tgt htgt
            simp only [List.map_cons, List.map_append, List.mem_cons, List.mem_append] at htgt
            push_neg at htgt
            rw [IH2.1 tgt (by rw [hcongr2]; exact htgt.2.2)]
            rw [IH1.1 tgt (by rw [hcongr1]; exact htgt.2.1)]
            rw [alistGet_modify_ne _ _ _ _ htgt.1, alistGet_modify_ne _ _ _ _ htgt.1]
          · intro p hp
            rcases List.mem_cons.mp hp with hp | hp
            · subst hp
              rw [IH2.1 id (by rw [hcongr2]; exact hid_r)]
              rw [IH1.1 id (by rw [hcongr1]; exact hid_c)]
              rw [alistGet_modify_self, alistGet_modify_self, hg]
              rfl
            · rcases List.mem_append.mp hp with hp | hp
              · have hp1r : p.1 ∉ (specNumber f m pre rest (idx + 1)).map Prod.fst :=
                  fun h => hdisj (List.mem_map_of_mem Prod.fst hp) h
                rw [IH2.1 p.1 (by rw [hcongr2]; exact hp1r)]
                exact IH1.2 p (by rw [hcongr1]; exact hp)
              · exact IH2.2 p (by rw [hcongr2]; exact hp)

theorem specNumber_pos (ids : List Str) :
    ∀ (fuel : Nat) (m : ItemMap) (pre : Str) (idx j : Nat) (hj : j < ids.length)
      (it : WBSItem),
      j + 1 ≤ fuel →
      alistGet m (ids.get ⟨j, hj⟩) = some it →
      (ids.get ⟨j, hj⟩,
        if it.wbsNumber = [] then
          (if pre = [] then natToStr (idx + j + 1) else pre ++ '.' :: natToStr (idx + j + 1))
        else it.wbsNumber) ∈ specNumber fuel m pre ids idx := by
  induction ids with
  | nil =>
    intro fuel m pre idx j hj
    exact absurd hj (by simp)
  | cons id rest ih =>
    intro fuel m pre idx j hj it hfj hg
    cases fuel with
    | zero => omega
    | succ f =>
      cases j with
      | zero =>
        have hg' : alistGet m id = some it := hg
        have h01 : idx + 0 + 1 = idx + 1 := by omega
        rw [h01]
        simp only [specNumber, hg']
        exact List.mem_cons_self _ _
      | succ j2 =>
        have hj2 : j2 < rest.length := by simpa using hj
        have hrec := ih f m pre (idx + 1) j2 hj2 it (by omega) hg
        have harith : idx + 1 + j2 + 1 = idx + (j2 + 1) + 1 := by omega
        rw [harith] at hrec
        cases hg0 : alistGet m id with
        | none =>
          simp only [specNumber, hg0]
          exact hrec
        | some item0 =>
          simp only [specNumber, hg0]
          exact List.mem_cons_of_mem _ (List.mem_append_right _ hrec)

theorem specNumber_num_ne_nil (pre : Str) (idx : Nat) (it : WBSItem) :
    (if it.wbsNumber = [] then
      (if pre = [] then natToStr (idx + 1) else pre ++ '.' :: natToStr (idx + 1))
    else it.wbsNumber) ≠ [] := by
  by_cases hw : it.wbsNumber = []
  · rw [if_pos hw]
    by_cases hp : pre = []
    · rw [if_pos hp]
      exact natToStr_ne_nil (idx + 1)
    · rw [if_neg hp]
      simp
  · rw [if_neg hw]
    exact hw

theorem specNumber_child_pos (ids : List Str) :
    ∀ (fuel : Nat) (m : ItemMap) (pre : Str) (idx j : Nat) (hj : j < ids.length)
      (it : WBSItem),
      alistGet m (ids.get ⟨j, hj⟩) = some it →
      ∀ (k : Nat) (hk : k < (sortStrs it.childIds).length) (cit : WBSItem),
      alistGet m ((sortStrs it.childIds).get ⟨k, hk⟩) = some cit →
      j + k + 2 ≤ fuel →
      ((sortStrs it.childIds).get ⟨k, hk⟩,
        if cit.wbsNumber = [] then
          (if it.wbsNumber = [] then
            (if pre = [] then natToStr (idx + j + 1) else pre ++ '.' :: natToStr (idx + j + 1))
          else it.wbsNumber) ++ '.' :: natToStr (k + 1)
        else cit.wbsNumber) ∈ specNumber fuel m pre ids idx := by
  induction ids with
  | nil =>
    intro fuel m pre idx j hj
    exact absurd hj (by simp)
  | cons id rest ih =>
    intro fuel m pre idx j hj it hg k hk cit hgc hfuel
    cases fuel with
    | zero => omega
    | succ f =>
      cases j with
      | zero =>
        have hg' : alistGet m id = some it := hg
        have hchild := specNumber_pos (sortStrs it.childIds) f m
          (if it.wbsNumber = [] then
            (if pre = [] then natToStr (idx + 1) else pre ++ '.' :: natToStr (idx + 1))
          else it.wbsNumber) 0 k hk cit (by omega) hgc
        rw [if_neg (specNumber_num_ne_nil pre idx it)] at hchild
        have h0k : 0 + k + 1 = k + 1 := by omega
        rw [h0k] at hchild
        have h01 : idx + 0 + 1 = idx + 1 := by omega
        rw [h01]
        simp only [specNumber, hg']
        exact List.mem_cons_of_mem _ (List.mem_append_left _ hchild)
      | succ j2 =>
        have hj2 : j2 < rest.length := by simpa using hj
        have hrec := ih f m pre (idx + 1) j2 hj2 it hg k hk cit hgc (by omega)
        have harith : idx + 1 + j2 + 1 = idx + (j2 + 1) + 1 := by omega
        rw [harith] at hrec
        cases hg0 : alistGet m id with
        | none =>
          simp only [specNumber, hg0]
          exact hrec
        | some item0 =>
          simp only [specNumber, hg0]
          exact List.mem_cons_of_mem _ (List.mem_append_right _ hrec)

/-- C6: over every resolved tree whose claim-side numbering walk visits
each node at most once, the mutating numbering pass realizes the dotted
scheme exactly — (1) every entry of the claim-side walk `specNumber`
(authored numbers verbatim, roots positional, children
`{parentNumber}.{1-based sorted position}`) is the node's final number;
(2) a root at position `j` gets `j+1` unless authored; (3) in any
invocation, the `k`-th lexicographically sorted child of the node at
sibling position `j` gets `{parent's number}.{k+1}` unless authored,
where the parent's number is its authored string verbatim or its raw
positional number; and (4) on the concrete depth-3 project the authored
root `X` keeps its number with children `X.1`, `X.2`, its later sibling
still gets the raw positional `3` with children `3.1`, `3.2` and
grandchild `3.2.1`. -/
theorem assignWBSNumbers_spec :
    (∀ (project : WBSProject) (fuel : Nat),
      ((specNumber fuel project.items [] project.rootItemIds 0).map Prod.fst).Nodup →
      ∀ p ∈ specNumber fuel project.items [] project.rootItemIds 0,
        (alistGet (assignWBSNumbers fuel project).items p.1).map (·.wbsNumber) =
          some p.2) ∧
    (∀ (project : WBSProject) (fuel : Nat),
      ((specNumber fuel project.items [] project.rootItemIds 0).map Prod.fst).Nodup →
      ∀ j (hj : j < project.rootItemIds.length) (it : WBSItem),
      j + 1 ≤ fuel →
      alistGet project.items (project.rootItemIds.get ⟨j, hj⟩) = some it →
      (alistGet (assignWBSNumbers fuel project).items
          (project.rootItemIds.get ⟨j, hj⟩)).map (·.wbsNumber) =
        some (if it.wbsNumber = [] then natToStr (j + 1) else it.wbsNumber)) ∧
    (∀ (fuel : Nat) (m : ItemMap) (pre : Str) (ids : List Str) (idx : Nat),
      ((specNumber fuel m pre ids idx).map Prod.fst).Nodup →
      ∀ j (hj : j < ids.length) (it : WBSItem),
      alistGet m (ids.get ⟨j, hj⟩) = some it →
      ∀ k (hk : k < (sortStrs it.childIds).length) (cit : WBSItem),
      alistGet m ((sortStrs it.childIds).get ⟨k, hk⟩) = some cit →
      j + k + 2 ≤ fuel →
      (alistGet (assignNumberAux fuel m pre ids idx)
          ((sortStrs it.childIds).get ⟨k, hk⟩)).map (·.wbsNumber) =
        some (if cit.wbsNumber = [] then
          (if it.wbsNumber = [] then
            (if pre = [] then natToStr (idx + j + 1) else pre ++ '.' :: natToStr (idx + j + 1))
          else it.wbsNumber) ++ '.' :: natToStr (k + 1)
        else cit.wbsNumber)) ∧
    ((alistGet (assignWBSNumbers (wbsFuel numProject.items) numProject).items
        (str "p/a.md")).map (·.wbsNumber) = some (str "1") ∧
     (alistGet (assignWBSNumbers (wbsFuel numProject.items) numProject).items
        (str "p/b.md")).map (·.wbsNumber) = some (str "X") ∧
     (alistGet (assignWBSNumbers (wbsFuel numProject.items) numProject).items
        (str "p/b1.md")).map (·.wbsNumber) = some (str "X.1") ∧
     (alistGet (assignWBSNumbers (wbsFuel numProject.items) numProject).items
        (str "p/b2.md")).map (·.wbsNumber) = some (str "X.2") ∧
     (alistGet (assignWBSNumbers (wbsFuel numProject.items) numProject).items
        (str "p/c.md")).map (·.wbsNumber) = some (str "3") ∧
     (alistGet (assignWBSNumbers (wbsFuel numProject.items) numProject).items
        (str "p/c1.md")).map (·.wbsNumber) = some (str "3.1") ∧
     (alistGet (assignWBSNumbers (wbsFuel numProject.items) numProject).items
        (str "p/c2.md")).map (·.wbsNumber) = some (str "3.2") ∧
     (alistGet (assignWBSNumbers (wbsFuel numProject.items) numProject).items
        (str "p/c21.md")).map (·.wbsNumber) = some (str "3.2.1")) := by
  refine ⟨?_, ?_, ?_, ?_⟩
  · intro project fuel hnd p hp
    exact (assignNumberAux_realizes fuel project.items [] project.rootItemIds 0 hnd).2 p hp
  · intro project fuel hnd j hj it hfj hg
    have hmem := specNumber_pos project.rootItemIds fuel project.items [] 0 j hj it hfj hg
    simp only [eq_self_iff_true, if_true, Nat.zero_add] at hmem
    exact (assignNumberAux_realizes fuel project.items [] project.rootItemIds 0 hnd).2 _ hmem
  · intro fuel m pre ids idx hnd j hj it hg k hk cit hgc hfuel
    exact (assignNumberAux_realizes fuel m pre ids idx hnd).2 _
      (specNumber_child_pos ids fuel m pre idx j hj it hg k hk cit hgc hfuel)
  · decide

/-- C6 witness: the three general conjuncts applied to the concrete
depth-3 project — the walk entry for the grandchild yields `3.2.1`, the
root law yields `3` for the third root, and the child law yields `3.2`
for the second sorted child of that root. -/
theorem assignWBSNumbers_spec_witness :
    (alistGet (assignWBSNumbers (wbsFuel numProject.items) numProject).items
        (str "p/c21.md")).map (·.wbsNumber) = some (str "3.2.1") ∧
    (alistGet (assignWBSNumbers 3 numProject).items
        (str "p/c.md")).map (·.wbsNumber) = some (str "3") ∧
    (alistGet (assignNumberAux (wbsFuel numProject.items) numProject.items []
        numProject.rootItemIds 0) (str "p/c2.md")).map (·.wbsNumber) = some (str "3.2") := by
  refine ⟨?_, ?_, ?_⟩
  · exact (assignWBSNumbers_spec.1 numProject (wbsFuel numProject.items) (by decide)
      (str "p/c21.md", str "3.2.1") (by decide)).trans (by decide)
  · exact (assignWBSNumbers_spec.2.1 numProject 3 (by decide) 2 (by decide) numC
      (by decide) (by decide)).trans (by decide)
  · exact (assignWBSNumbers_spec.2.2.1 (wbsFuel numProject.items) numProject.items []
      numProject.rootItemIds 0 (by decide) 2 (by decide) numC (by decide) 1 (by decide)
      numC2 (by decide) (by decide)).trans (by decide)

end NexusPM
